import Mathlib

/-!
A shallow embedding of `sync.py`, a one-way directory mirroring tool.

The program performs one reconciliation pass: it lists the source and the
destination directory, copies every source entry that is missing from the
destination listing, copies every shared entry whose MD5 digest differs,
and finally removes every destination entry absent from the source listing,
reporting each action to a line-based log file (and, when the verbose flag
is set, to standard output).

Modelling decisions, each tied to the source:
* A regular file is its byte content plus the metadata handled by
  `shutil.copy`: the permission mode (which `shutil.copy` transfers) and the
  modification time (which it does not; the copy gets the current time).
* A flat directory is an association list from entry names to files; entry
  names of a real directory are distinct, which appears as `Nodup`
  hypotheses on the listings.  `none` in place of a directory models a
  missing or unreadable path, where `os.listdir` raises.
* `hashlib.md5(...).hexdigest()` is abstracted as a parameter `hashFn`
  applied to the full byte content, and `time.strftime(...)` as a parameter
  `fmtTime` applied to a logical clock that advances at each observation.
* Every externally visible action (console line, log append, file copy,
  file removal) is also recorded in an event trace, in program order, so
  that ordering properties of the pass can be stated.
-/

/-- Byte content of a file (`f.read()`), one number per byte. -/
abbrev Bytes := List Nat

/-- A regular file: byte content plus the metadata relevant to
`shutil.copy` (the permission mode is transferred by a copy, the
modification time is not). -/
structure File where
  content : Bytes
  mode : Nat
  mtime : Nat
deriving DecidableEq

/-- A flat directory: an association list from entry names to files. -/
abbrev DirListing := List (String × File)

/-- Open the file stored under a name in a directory (`open(dir/name)`):
`none` when there is no such entry. -/
def lookupFile : DirListing → String → Option File
  | [], _ => none
  | (m, g) :: d, n => if m = n then some g else lookupFile d n

/-- `os.listdir`: the entry names of a directory, in listing order. -/
def listdir (d : DirListing) : List String := d.map Prod.fst

/-- Write a file under a name: replace the existing entry in place, or
append a new entry.  This is the effect of `shutil.copy(src/name, dst)` on
the destination directory. -/
def setFile : DirListing → String → File → DirListing
  | [], n, f => [(n, f)]
  | (m, g) :: d, n, f => if m = n then (n, f) :: d else (m, g) :: setFile d n f

/-- `os.remove(dst/name)`: drop the entry with the given name. -/
def removeEntry (d : DirListing) (n : String) : DirListing :=
  d.filter fun p => p.1 ≠ n

/-- One externally visible action of a pass, in program order: a console
line from `print`, a line appended to the log file, a `shutil.copy` into
the destination, or an `os.remove` from the destination. -/
inductive Event where
  | consoleLine (s : String)
  | logAppend (line : String)
  | copyFile (name : String)
  | removeFile (name : String)
deriving DecidableEq

/-- The world state a pass reads and writes: the two directory trees
(`none` models a missing or unreadable path), the log file as the list of
lines written so far, the standard output, the logical clock used for
timestamps and modification times, and the trace of performed events. -/
structure SyncState where
  srcDir : Option DirListing
  dstDir : Option DirListing
  logFile : List String
  stdout : List String
  clock : Nat
  events : List Event
deriving DecidableEq

/-- Message of `Logger.log_sync_start` and of the verbose start line. -/
def syncStartText (s d : String) : String :=
  "Syncing files from " ++ s ++ " to " ++ d

/-- Message of `Logger.log_sync_end` and of the verbose end line. -/
def syncEndText (s d : String) : String :=
  "Sync completed from " ++ s ++ " to " ++ d

/-- Message of `Logger.log_copy` and of the verbose copy line. -/
def copyText (f s d : String) : String :=
  "Copying " ++ f ++ " from " ++ s ++ " to " ++ d

/-- Message of `Logger.log_remove` and of the verbose remove line. -/
def removeText (f d : String) : String :=
  "Removing " ++ f ++ " from " ++ d

/-- One written log line: `time.strftime("%Y-%m-%d %H:%M:%S")` rendered at
logical time `t`, then `": "`, the message, and a newline. -/
def logLine (fmtTime : Nat → String) (t : Nat) (msg : String) : String :=
  fmtTime t ++ ": " ++ msg ++ "\n"

/-- The `Logger` object: it remembers the two paths it reports about and
the path of its log file. -/
structure Logger where
  src : String
  dst : String
  log_file_path : String

/-- `Logger.log`: append exactly one timestamped line to the log file,
observing the clock once (`time.strftime` at call time). -/
def logAppendLine (fmtTime : Nat → String) (msg : String) (st : SyncState) : SyncState :=
  { st with
    logFile := st.logFile ++ [logLine fmtTime st.clock msg]
    clock := st.clock + 1
    events := st.events ++ [Event.logAppend (logLine fmtTime st.clock msg)] }

/-- The `if args.verbose: print(...)` pattern: write one line to standard
output when the flag is set. -/
def printIf (verbose : Bool) (line : String) (st : SyncState) : SyncState :=
  if verbose then
    { st with
      stdout := st.stdout ++ [line]
      events := st.events ++ [Event.consoleLine line] }
  else st

/-- `hash_file`: open `dir/name` and digest its full byte content; `none`
when the file is missing, where the Python call would raise.  `hashFn`
abstracts `hashlib.md5(...).hexdigest()`. -/
def hash_file {Fp : Type} (hashFn : Bytes → Fp) (d : DirListing) (name : String) :
    Option Fp :=
  (lookupFile d name).map fun f => hashFn f.content

/-- The configuration a pass reads: the two digest and timestamp
collaborators, the global `args.verbose` flag, the `src` and `dst`
arguments of `sync`, and its `logger` argument. -/
structure Ctx (Fp : Type) where
  hashFn : Bytes → Fp
  fmtTime : Nat → String
  verbose : Bool
  src : String
  dst : String
  logger : Logger

/-- Missing or unreadable directory at `os.listdir` time (the spec's
`DirectoryAccessError`; Python raises `FileNotFoundError`). -/
structure DirectoryAccessError where
  path : String
deriving DecidableEq

/-- One copy, as the body of the first loop performs it: the verbose
console line, then `logger.log_copy(file)`, then
`shutil.copy(os.path.join(src, file), dst)`.  The copy transfers the byte
content and the permission mode of the source file; the destination entry
gets the current time as its modification time.  The `none` branch is
unreachable in a pass, because `file` always comes from the source
listing. -/
def doCopy {Fp : Type} (c : Ctx Fp) (srcD : DirListing) (file : String) :
    SyncState × DirListing → SyncState × DirListing := fun acc =>
  let st := printIf c.verbose (copyText file c.src c.dst) acc.1
  let st1 := logAppendLine c.fmtTime (copyText file c.logger.src c.logger.dst) st
  match lookupFile srcD file with
  | some f =>
      ({ st1 with
          clock := st1.clock + 1
          events := st1.events ++ [Event.copyFile file] },
        setFile acc.2 file { content := f.content, mode := f.mode, mtime := st1.clock })
  | none => (st1, acc.2)

/-- One iteration of the first loop of `sync`: copy when the name is
missing from the destination listing, otherwise compare the two digests and
copy exactly when they differ. -/
def copyStep {Fp : Type} [DecidableEq Fp] (c : Ctx Fp) (srcD : DirListing)
    (dst_files : List String) (file : String) :
    SyncState × DirListing → SyncState × DirListing := fun acc =>
  if file ∉ dst_files then
    doCopy c srcD file acc
  else
    if hash_file c.hashFn srcD file ≠ hash_file c.hashFn acc.2 file then
      doCopy c srcD file acc
    else acc

/-- The first loop of `sync`, over the source listing. -/
def copyLoop {Fp : Type} [DecidableEq Fp] (c : Ctx Fp) (srcD : DirListing)
    (dst_files : List String) :
    List String → SyncState × DirListing → SyncState × DirListing
  | [], acc => acc
  | file :: rest, acc =>
      copyLoop c srcD dst_files rest (copyStep c srcD dst_files file acc)

/-- One removal, as the body of the second loop performs it: the verbose
console line, then `logger.log_remove(file)`, then
`os.remove(os.path.join(dst, file))`. -/
def doRemove {Fp : Type} (c : Ctx Fp) (file : String) :
    SyncState × DirListing → SyncState × DirListing := fun acc =>
  let st := printIf c.verbose (removeText file c.dst) acc.1
  let st1 := logAppendLine c.fmtTime (removeText file c.logger.dst) st
  ({ st1 with events := st1.events ++ [Event.removeFile file] },
    removeEntry acc.2 file)

/-- One iteration of the second loop of `sync`: remove the destination
entry when its name is missing from the source listing. -/
def removeStep {Fp : Type} (c : Ctx Fp) (src_files : List String) (file : String) :
    SyncState × DirListing → SyncState × DirListing := fun acc =>
  if file ∉ src_files then doRemove c file acc else acc

/-- The second loop of `sync`, over the destination listing. -/
def removeLoop {Fp : Type} (c : Ctx Fp) (src_files : List String) :
    List String → SyncState × DirListing → SyncState × DirListing
  | [], acc => acc
  | file :: rest, acc =>
      removeLoop c src_files rest (removeStep c src_files file acc)

/-- The `sync` function, one reconciliation pass: verbose start line, pass
start log line, the two `os.listdir` snapshots, the copy loop over the
source listing, the remove loop over the destination listing, verbose end
line, pass end log line.  The result carries the final world state plus
the access error when a listing failed; in that case the Python exception
propagates to the caller and the state keeps the effects already
performed. -/
def sync {Fp : Type} [DecidableEq Fp] (c : Ctx Fp) (st : SyncState) :
    SyncState × Option DirectoryAccessError :=
  let st1 := printIf c.verbose (syncStartText c.src c.dst) st
  let st2 := logAppendLine c.fmtTime (syncStartText c.logger.src c.logger.dst) st1
  match st2.srcDir with
  | none => (st2, some { path := c.src })
  | some srcD =>
    match st2.dstDir with
    | none => (st2, some { path := c.dst })
    | some dstD =>
      let src_files := listdir srcD
      let dst_files := listdir dstD
      let acc1 := copyLoop c srcD dst_files src_files (st2, dstD)
      let acc2 := removeLoop c src_files dst_files acc1
      let st3 := { acc2.1 with dstDir := some acc2.2 }
      let st4 := printIf c.verbose (syncEndText c.src c.dst) st3
      let st5 := logAppendLine c.fmtTime (syncEndText c.logger.src c.logger.dst) st4
      (st5, none)

/-- `true` exactly on the events that touch a directory entry: a copy or a
removal. -/
def isFileOp : Event → Bool
  | Event.copyFile _ => true
  | Event.removeFile _ => true
  | _ => false

/-- The event trace with console lines removed: what a pass does to the
filesystem and the log file. -/
def nonPrintEvents (evs : List Event) : List Event :=
  evs.filter fun e =>
    match e with
    | Event.consoleLine _ => false
    | _ => true

/-- Every occurrence of an action event `act n` in a trace is preceded by
the log line that describes it (`logOf n` at some timestamp). -/
def ActLogged (act : String → Event) (logOf : String → Nat → String)
    (evs : List Event) : Prop :=
  ∀ l1 n l2, evs = l1 ++ act n :: l2 →
    ∃ t, Event.logAppend (logOf n t) ∈ l1

/-- Agreement of two world states on everything except the standard output
and the console lines of the trace: same directories, same log file, same
clock, and the same file and log events in the same order. -/
def CoreEq (st1 st2 : SyncState) : Prop :=
  st1.srcDir = st2.srcDir ∧ st1.dstDir = st2.dstDir ∧
  st1.logFile = st2.logFile ∧ st1.clock = st2.clock ∧
  nonPrintEvents st1.events = nonPrintEvents st2.events

/-! ### Concrete inputs used to exercise the theorems -/

/-- A digest collaborator for concrete runs: the identity fingerprint. -/
def idHash : Bytes → Bytes := fun b => b

/-- A timestamp collaborator for concrete runs. -/
def natTime : Nat → String := fun t => toString t

/-- A concrete configuration: paths `alpha` and `beta`, verbose on. -/
def ctxA : Ctx Bytes :=
  { hashFn := idHash, fmtTime := natTime, verbose := true, src := "alpha",
    dst := "beta",
    logger := { src := "alpha", dst := "beta", log_file_path := "log.txt" } }

/-- The same configuration with the verbose flag off. -/
def ctxB : Ctx Bytes := { ctxA with verbose := false }

/-- A source directory with two files. -/
def srcDemo : DirListing :=
  [("a.txt", { content := [104, 105], mode := 420, mtime := 11 }),
    ("b.txt", { content := [119], mode := 420, mtime := 12 })]

/-- A destination directory sharing `b.txt` with different content, plus a
stale entry `c.txt`. -/
def dstDemo : DirListing :=
  [("b.txt", { content := [87], mode := 384, mtime := 3 }),
    ("c.txt", { content := [115], mode := 420, mtime := 4 })]

/-- A world state holding the two demo directories and an existing log. -/
def stDemo : SyncState :=
  { srcDir := some srcDemo, dstDir := some dstDemo, logFile := ["0: old\n"],
    stdout := [], clock := 1, events := [] }

/-- A world state whose source directory is missing. -/
def stMissingSrc : SyncState :=
  { srcDir := none, dstDir := some dstDemo, logFile := [], stdout := [],
    clock := 0, events := [] }

/-- A world state for the create scenario: one source file, empty
destination. -/
def stCreate : SyncState :=
  { srcDir := some [("a.txt", { content := [1, 2], mode := 6, mtime := 5 })],
    dstDir := some [], logFile := [], stdout := [], clock := 0, events := [] }

/-! ### Basic directory lemmas -/

@[simp]
theorem lookupFile_setFile_self (d : DirListing) (n : String) (f : File) :
    lookupFile (setFile d n f) n = some f := by
  induction d with
  | nil => simp [setFile, lookupFile]
  | cons p d ih =>
      obtain ⟨m, g⟩ := p
      by_cases h : m = n
      · simp [setFile, h, lookupFile]
      · simp [setFile, h, lookupFile, ih]

@[simp]
theorem listdir_nil : listdir ([] : DirListing) = [] := rfl

@[simp]
theorem listdir_cons (k : String) (g : File) (d : DirListing) :
    listdir ((k, g) :: d) = k :: listdir d := rfl

theorem lookupFile_setFile_of_ne {m n : String} (h : m ≠ n) (d : DirListing) (f : File) :
    lookupFile (setFile d n f) m = lookupFile d m := by
  have h' : ¬(n = m) := fun hh => h hh.symm
  induction d with
  | nil => simp [setFile, lookupFile, h']
  | cons p d ih =>
      obtain ⟨k, g⟩ := p
      by_cases hk : k = n
      · subst hk
        simp [setFile, lookupFile, h']
      · by_cases hm : k = m
        · subst hm
          simp [setFile, hk, lookupFile]
        · simp [setFile, hk, lookupFile, hm, ih]

@[simp]
theorem lookupFile_removeEntry_self (d : DirListing) (n : String) :
    lookupFile (removeEntry d n) n = none := by
  induction d with
  | nil => simp [removeEntry, lookupFile]
  | cons p d ih =>
      obtain ⟨k, g⟩ := p
      by_cases hk : k = n
      · simpa [removeEntry, List.filter_cons, hk] using ih
      · simpa [removeEntry, List.filter_cons, hk, lookupFile] using ih

theorem lookupFile_removeEntry_of_ne {m n : String} (h : m ≠ n) (d : DirListing) :
    lookupFile (removeEntry d n) m = lookupFile d m := by
  have h' : ¬(m = n) := h
  induction d with
  | nil => simp [removeEntry, lookupFile]
  | cons p d ih =>
      obtain ⟨k, g⟩ := p
      by_cases hk : k = n
      · subst hk
        have hkm : ¬(k = m) := fun hh => h hh.symm
        simpa [removeEntry, List.filter_cons, lookupFile, hkm] using ih
      · by_cases hm : k = m
        · subst hm
          simp [removeEntry, List.filter_cons, hk, lookupFile]
        · simpa [removeEntry, List.filter_cons, hk, lookupFile, hm] using ih

theorem lookupFile_eq_none_iff (d : DirListing) (n : String) :
    lookupFile d n = none ↔ n ∉ listdir d := by
  induction d with
  | nil => simp [lookupFile]
  | cons p d ih =>
      obtain ⟨k, g⟩ := p
      by_cases hk : k = n
      · subst hk
        simp [lookupFile]
      · have hk' : ¬(n = k) := fun hh => hk hh.symm
        simp [lookupFile, hk, hk', ih]

theorem mem_listdir_iff_isSome (d : DirListing) (n : String) :
    n ∈ listdir d ↔ (lookupFile d n).isSome := by
  induction d with
  | nil => simp [lookupFile]
  | cons p d ih =>
      obtain ⟨k, g⟩ := p
      by_cases hk : k = n
      · subst hk
        simp [lookupFile]
      · have hk' : ¬(n = k) := fun hh => hk hh.symm
        simp [lookupFile, hk, hk', ih]

/-! ### Field lemmas for the state primitives -/

@[simp]
theorem printIf_srcDir (v : Bool) (l : String) (st : SyncState) :
    (printIf v l st).srcDir = st.srcDir := by
  cases v <;> simp [printIf]

@[simp]
theorem printIf_dstDir (v : Bool) (l : String) (st : SyncState) :
    (printIf v l st).dstDir = st.dstDir := by
  cases v <;> simp [printIf]

@[simp]
theorem printIf_logFile (v : Bool) (l : String) (st : SyncState) :
    (printIf v l st).logFile = st.logFile := by
  cases v <;> simp [printIf]

@[simp]
theorem printIf_clock (v : Bool) (l : String) (st : SyncState) :
    (printIf v l st).clock = st.clock := by
  cases v <;> simp [printIf]

@[simp]
theorem printIf_events (v : Bool) (l : String) (st : SyncState) :
    (printIf v l st).events =
      st.events ++ if v then [Event.consoleLine l] else [] := by
  cases v <;> simp [printIf]

@[simp]
theorem logAppendLine_srcDir (ft : Nat → String) (msg : String) (st : SyncState) :
    (logAppendLine ft msg st).srcDir = st.srcDir := rfl

@[simp]
theorem logAppendLine_dstDir (ft : Nat → String) (msg : String) (st : SyncState) :
    (logAppendLine ft msg st).dstDir = st.dstDir := rfl

@[simp]
theorem logAppendLine_logFile (ft : Nat → String) (msg : String) (st : SyncState) :
    (logAppendLine ft msg st).logFile = st.logFile ++ [logLine ft st.clock msg] := rfl

@[simp]
theorem logAppendLine_clock (ft : Nat → String) (msg : String) (st : SyncState) :
    (logAppendLine ft msg st).clock = st.clock + 1 := rfl

@[simp]
theorem logAppendLine_events (ft : Nat → String) (msg : String) (st : SyncState) :
    (logAppendLine ft msg st).events =
      st.events ++ [Event.logAppend (logLine ft st.clock msg)] := rfl

/-! ### Field lemmas for one copy and one removal -/

theorem doCopy_fst_srcDir {Fp : Type} (c : Ctx Fp) (srcD : DirListing) (file : String)
    (acc : SyncState × DirListing) :
    (doCopy c srcD file acc).1.srcDir = acc.1.srcDir := by
  rcases h : lookupFile srcD file with _ | f <;> simp [doCopy, h]

theorem doCopy_fst_dstDir {Fp : Type} (c : Ctx Fp) (srcD : DirListing) (file : String)
    (acc : SyncState × DirListing) :
    (doCopy c srcD file acc).1.dstDir = acc.1.dstDir := by
  rcases h : lookupFile srcD file with _ | f <;> simp [doCopy, h]

theorem doCopy_fst_logFile {Fp : Type} (c : Ctx Fp) (srcD : DirListing) (file : String)
    (acc : SyncState × DirListing) :
    (doCopy c srcD file acc).1.logFile =
      acc.1.logFile ++
        [logLine c.fmtTime acc.1.clock (copyText file c.logger.src c.logger.dst)] := by
  rcases h : lookupFile srcD file with _ | f <;> simp [doCopy, h]

theorem doCopy_snd_some {Fp : Type} (c : Ctx Fp) (srcD : DirListing) (file : String)
    (acc : SyncState × DirListing) (f : File) (h : lookupFile srcD file = some f) :
    (doCopy c srcD file acc).2 =
      setFile acc.2 file
        { content := f.content, mode := f.mode, mtime := acc.1.clock + 1 } := by
  simp [doCopy, h]

theorem doCopy_snd_none {Fp : Type} (c : Ctx Fp) (srcD : DirListing) (file : String)
    (acc : SyncState × DirListing) (h : lookupFile srcD file = none) :
    (doCopy c srcD file acc).2 = acc.2 := by
  simp [doCopy, h]

theorem doCopy_events_some {Fp : Type} (c : Ctx Fp) (srcD : DirListing) (file : String)
    (acc : SyncState × DirListing) (f : File) (h : lookupFile srcD file = some f) :
    (doCopy c srcD file acc).1.events =
      acc.1.events ++
        ((if c.verbose then [Event.consoleLine (copyText file c.src c.dst)] else []) ++
          [Event.logAppend
              (logLine c.fmtTime acc.1.clock (copyText file c.logger.src c.logger.dst)),
            Event.copyFile file]) := by
  simp [doCopy, h]

theorem doCopy_events_none {Fp : Type} (c : Ctx Fp) (srcD : DirListing) (file : String)
    (acc : SyncState × DirListing) (h : lookupFile srcD file = none) :
    (doCopy c srcD file acc).1.events =
      acc.1.events ++
        ((if c.verbose then [Event.consoleLine (copyText file c.src c.dst)] else []) ++
          [Event.logAppend
              (logLine c.fmtTime acc.1.clock (copyText file c.logger.src c.logger.dst))]) := by
  simp [doCopy, h]

theorem doRemove_fst_srcDir {Fp : Type} (c : Ctx Fp) (file : String)
    (acc : SyncState × DirListing) :
    (doRemove c file acc).1.srcDir = acc.1.srcDir := by
  simp [doRemove]

theorem doRemove_fst_dstDir {Fp : Type} (c : Ctx Fp) (file : String)
    (acc : SyncState × DirListing) :
    (doRemove c file acc).1.dstDir = acc.1.dstDir := by
  simp [doRemove]

theorem doRemove_fst_logFile {Fp : Type} (c : Ctx Fp) (file : String)
    (acc : SyncState × DirListing) :
    (doRemove c file acc).1.logFile =
      acc.1.logFile ++ [logLine c.fmtTime acc.1.clock (removeText file c.logger.dst)] := by
  simp [doRemove]

theorem doRemove_snd {Fp : Type} (c : Ctx Fp) (file : String)
    (acc : SyncState × DirListing) :
    (doRemove c file acc).2 = removeEntry acc.2 file := by
  simp [doRemove]

theorem doRemove_events {Fp : Type} (c : Ctx Fp) (file : String)
    (acc : SyncState × DirListing) :
    (doRemove c file acc).1.events =
      acc.1.events ++
        ((if c.verbose then [Event.consoleLine (removeText file c.dst)] else []) ++
          [Event.logAppend (logLine c.fmtTime acc.1.clock (removeText file c.logger.dst)),
            Event.removeFile file]) := by
  simp [doRemove]

/-! ### Field preservation through the two loops -/

theorem copyStep_fst_srcDir {Fp : Type} [DecidableEq Fp] (c : Ctx Fp) (srcD : DirListing)
    (dfiles : List String) (file : String) (acc : SyncState × DirListing) :
    (copyStep c srcD dfiles file acc).1.srcDir = acc.1.srcDir := by
  by_cases h1 : file ∉ dfiles
  · simp [copyStep, h1, doCopy_fst_srcDir]
  · by_cases h2 : hash_file c.hashFn srcD file ≠ hash_file c.hashFn acc.2 file
    · simp [copyStep, h1, h2, doCopy_fst_srcDir]
    · simp [copyStep, h1, h2]

theorem copyStep_fst_dstDir {Fp : Type} [DecidableEq Fp] (c : Ctx Fp) (srcD : DirListing)
    (dfiles : List String) (file : String) (acc : SyncState × DirListing) :
    (copyStep c srcD dfiles file acc).1.dstDir = acc.1.dstDir := by
  by_cases h1 : file ∉ dfiles
  · simp [copyStep, h1, doCopy_fst_dstDir]
  · by_cases h2 : hash_file c.hashFn srcD file ≠ hash_file c.hashFn acc.2 file
    · simp [copyStep, h1, h2, doCopy_fst_dstDir]
    · simp [copyStep, h1, h2]

theorem removeStep_fst_srcDir {Fp : Type} (c : Ctx Fp) (sfiles : List String)
    (file : String) (acc : SyncState × DirListing) :
    (removeStep c sfiles file acc).1.srcDir = acc.1.srcDir := by
  by_cases h1 : file ∉ sfiles
  · simp [removeStep, h1, doRemove_fst_srcDir]
  · simp [removeStep, h1]

theorem removeStep_fst_dstDir {Fp : Type} (c : Ctx Fp) (sfiles : List String)
    (file : String) (acc : SyncState × DirListing) :
    (removeStep c sfiles file acc).1.dstDir = acc.1.dstDir := by
  by_cases h1 : file ∉ sfiles
  · simp [removeStep, h1, doRemove_fst_dstDir]
  · simp [removeStep, h1]

theorem copyLoop_fst_srcDir {Fp : Type} [DecidableEq Fp] (c : Ctx Fp) (srcD : DirListing)
    (dfiles : List String) (files : List String) :
    ∀ acc : SyncState × DirListing,
      (copyLoop c srcD dfiles files acc).1.srcDir = acc.1.srcDir := by
  induction files with
  | nil => intro acc; rfl
  | cons f fs ih =>
      intro acc
      simp only [copyLoop]
      rw [ih, copyStep_fst_srcDir]

theorem copyLoop_fst_dstDir {Fp : Type} [DecidableEq Fp] (c : Ctx Fp) (srcD : DirListing)
    (dfiles : List String) (files : List String) :
    ∀ acc : SyncState × DirListing,
      (copyLoop c srcD dfiles files acc).1.dstDir = acc.1.dstDir := by
  induction files with
  | nil => intro acc; rfl
  | cons f fs ih =>
      intro acc
      simp only [copyLoop]
      rw [ih, copyStep_fst_dstDir]

theorem removeLoop_fst_srcDir {Fp : Type} (c : Ctx Fp) (sfiles : List String)
    (files : List String) :
    ∀ acc : SyncState × DirListing,
      (removeLoop c sfiles files acc).1.srcDir = acc.1.srcDir := by
  induction files with
  | nil => intro acc; rfl
  | cons f fs ih =>
      intro acc
      simp only [removeLoop]
      rw [ih, removeStep_fst_srcDir]

theorem removeLoop_fst_dstDir {Fp : Type} (c : Ctx Fp) (sfiles : List String)
    (files : List String) :
    ∀ acc : SyncState × DirListing,
      (removeLoop c sfiles files acc).1.dstDir = acc.1.dstDir := by
  induction files with
  | nil => intro acc; rfl
  | cons f fs ih =>
      intro acc
      simp only [removeLoop]
      rw [ih, removeStep_fst_dstDir]

/-! ### What the copy loop does to the destination directory -/

theorem doCopy_snd_lookup_of_ne {Fp : Type} (c : Ctx Fp) (srcD : DirListing)
    {n file : String} (h : n ≠ file) (acc : SyncState × DirListing) :
    lookupFile (doCopy c srcD file acc).2 n = lookupFile acc.2 n := by
  rcases hf : lookupFile srcD file with _ | f
  · rw [doCopy_snd_none c srcD file acc hf]
  · rw [doCopy_snd_some c srcD file acc f hf, lookupFile_setFile_of_ne h]

theorem copyStep_snd_lookup_of_ne {Fp : Type} [DecidableEq Fp] (c : Ctx Fp)
    (srcD : DirListing) (dfiles : List String) {n file : String} (h : n ≠ file)
    (acc : SyncState × DirListing) :
    lookupFile (copyStep c srcD dfiles file acc).2 n = lookupFile acc.2 n := by
  by_cases h1 : file ∉ dfiles
  · simp [copyStep, h1, doCopy_snd_lookup_of_ne c srcD h]
  · by_cases h2 : hash_file c.hashFn srcD file ≠ hash_file c.hashFn acc.2 file
    · simp [copyStep, h1, h2, doCopy_snd_lookup_of_ne c srcD h]
    · simp [copyStep, h1, h2]

theorem copyLoop_snd_lookup_of_not_mem {Fp : Type} [DecidableEq Fp] (c : Ctx Fp)
    (srcD : DirListing) (dfiles : List String) {n : String} (files : List String) :
    ∀ acc : SyncState × DirListing, n ∉ files →
      lookupFile (copyLoop c srcD dfiles files acc).2 n = lookupFile acc.2 n := by
  induction files with
  | nil => intro acc _; rfl
  | cons f0 fs ih =>
      intro acc hn
      simp only [copyLoop]
      have hnf : n ≠ f0 := fun hh => hn (by simp [hh])
      rw [ih _ fun hh => hn (List.mem_cons_of_mem f0 hh),
        copyStep_snd_lookup_of_ne c srcD dfiles hnf]

theorem copyLoop_snd_hash_of_mem {Fp : Type} [DecidableEq Fp] (c : Ctx Fp)
    (srcD : DirListing) (dfiles : List String) {n : String} {f : File}
    (hf : lookupFile srcD n = some f) (files : List String) :
    ∀ acc : SyncState × DirListing, files.Nodup → n ∈ files →
      (lookupFile (copyLoop c srcD dfiles files acc).2 n).map
          (fun g => c.hashFn g.content) =
        some (c.hashFn f.content) := by
  induction files with
  | nil => intro acc _ h; cases h
  | cons f0 fs ih =>
      intro acc hnd hmem
      obtain ⟨hnotin, hndfs⟩ := List.nodup_cons.mp hnd
      simp only [copyLoop]
      by_cases hn : f0 = n
      · subst hn
        rw [copyLoop_snd_lookup_of_not_mem c srcD dfiles fs _ hnotin]
        by_cases h1 : f0 ∉ dfiles
        · simp [copyStep, h1, doCopy_snd_some c srcD f0 acc f hf]
        · by_cases h2 : hash_file c.hashFn srcD f0 = hash_file c.hashFn acc.2 f0
          · have h3 : (lookupFile acc.2 f0).map (fun g => c.hashFn g.content) =
                some (c.hashFn f.content) := by
              have h4 : hash_file c.hashFn acc.2 f0 = some (c.hashFn f.content) := by
                rw [← h2]
                simp [hash_file, hf]
              simpa [hash_file] using h4
            simp [copyStep, h1, h2, h3]
          · simp [copyStep, h1, h2, doCopy_snd_some c srcD f0 acc f hf]
      · rcases List.mem_cons.mp hmem with h | h
        · exact absurd h.symm hn
        · exact ih _ hndfs h

theorem copyLoop_snd_create {Fp : Type} [DecidableEq Fp] (c : Ctx Fp)
    (srcD : DirListing) (dfiles : List String) {n : String} {f : File}
    (hf : lookupFile srcD n = some f) (hdst : n ∉ dfiles) (files : List String) :
    ∀ acc : SyncState × DirListing, files.Nodup → n ∈ files →
      ∃ t, lookupFile (copyLoop c srcD dfiles files acc).2 n =
        some { content := f.content, mode := f.mode, mtime := t } := by
  induction files with
  | nil => intro acc _ h; cases h
  | cons f0 fs ih =>
      intro acc hnd hmem
      obtain ⟨hnotin, hndfs⟩ := List.nodup_cons.mp hnd
      simp only [copyLoop]
      by_cases hn : f0 = n
      · subst hn
        rw [copyLoop_snd_lookup_of_not_mem c srcD dfiles fs _ hnotin]
        refine ⟨acc.1.clock + 1, ?_⟩
        simp [copyStep, hdst, doCopy_snd_some c srcD f0 acc f hf]
      · rcases List.mem_cons.mp hmem with h | h
        · exact absurd h.symm hn
        · exact ih _ hndfs h

theorem copyLoop_id {Fp : Type} [DecidableEq Fp] (c : Ctx Fp) (srcD : DirListing)
    (dfiles : List String) (files : List String) :
    ∀ acc : SyncState × DirListing,
      (∀ file ∈ files, file ∈ dfiles ∧
          hash_file c.hashFn srcD file = hash_file c.hashFn acc.2 file) →
      copyLoop c srcD dfiles files acc = acc := by
  induction files with
  | nil => intro acc _; rfl
  | cons f0 fs ih =>
      intro acc h
      obtain ⟨h1, h2⟩ := h f0 (List.mem_cons_self f0 fs)
      have hstep : copyStep c srcD dfiles f0 acc = acc := by
        simp [copyStep, h1, h2]
      simp only [copyLoop, hstep]
      exact ih acc fun file hm => h file (List.mem_cons_of_mem f0 hm)

/-! ### What the remove loop does to the destination directory -/

theorem removeEntry_lookup_none {d : DirListing} {n : String} (file : String)
    (h : lookupFile d n = none) :
    lookupFile (removeEntry d file) n = none := by
  by_cases hf : n = file
  · subst hf; simp
  · rw [lookupFile_removeEntry_of_ne hf]
    exact h

theorem removeStep_snd_lookup_of_mem {Fp : Type} (c : Ctx Fp) {sfiles : List String}
    {n : String} (hn : n ∈ sfiles) (file : String) (acc : SyncState × DirListing) :
    lookupFile (removeStep c sfiles file acc).2 n = lookupFile acc.2 n := by
  by_cases h1 : file ∉ sfiles
  · have hnf : n ≠ file := fun hh => h1 (hh ▸ hn)
    simp [removeStep, h1, doRemove_snd, lookupFile_removeEntry_of_ne hnf]
  · simp [removeStep, h1]

theorem removeLoop_snd_lookup_of_mem {Fp : Type} (c : Ctx Fp) {sfiles : List String}
    {n : String} (hn : n ∈ sfiles) (files : List String) :
    ∀ acc : SyncState × DirListing,
      lookupFile (removeLoop c sfiles files acc).2 n = lookupFile acc.2 n := by
  induction files with
  | nil => intro acc; rfl
  | cons f0 fs ih =>
      intro acc
      simp only [removeLoop]
      rw [ih, removeStep_snd_lookup_of_mem c hn]

theorem removeLoop_snd_none_mono {Fp : Type} (c : Ctx Fp) (sfiles : List String)
    (files : List String) {n : String} :
    ∀ acc : SyncState × DirListing, lookupFile acc.2 n = none →
      lookupFile (removeLoop c sfiles files acc).2 n = none := by
  induction files with
  | nil => intro acc h; exact h
  | cons f0 fs ih =>
      intro acc h
      simp only [removeLoop]
      apply ih
      by_cases h1 : f0 ∉ sfiles
      · simp [removeStep, h1, doRemove_snd, removeEntry_lookup_none f0 h]
      · simp [removeStep, h1, h]

theorem removeLoop_snd_none_of_mem {Fp : Type} (c : Ctx Fp) {sfiles : List String}
    {n : String} (hns : n ∉ sfiles) (files : List String) :
    ∀ acc : SyncState × DirListing, n ∈ files →
      lookupFile (removeLoop c sfiles files acc).2 n = none := by
  induction files with
  | nil => intro acc h; cases h
  | cons f0 fs ih =>
      intro acc hmem
      by_cases hn : f0 = n
      · subst hn
        simp only [removeLoop]
        apply removeLoop_snd_none_mono
        simp [removeStep, hns, doRemove_snd]
      · rcases List.mem_cons.mp hmem with h | h
        · exact absurd h.symm hn
        · simp only [removeLoop]
          exact ih _ h

theorem removeLoop_id {Fp : Type} (c : Ctx Fp) (sfiles : List String)
    (files : List String) :
    ∀ acc : SyncState × DirListing, (∀ file ∈ files, file ∈ sfiles) →
      removeLoop c sfiles files acc = acc := by
  induction files with
  | nil => intro acc _; rfl
  | cons f0 fs ih =>
      intro acc h
      have h1 := h f0 (List.mem_cons_self f0 fs)
      have hstep : removeStep c sfiles f0 acc = acc := by
        simp [removeStep, h1]
      simp only [removeLoop, hstep]
      exact ih acc fun file hm => h file (List.mem_cons_of_mem f0 hm)

/-! ### Unfolding one pass -/

theorem sync_of_none_src {Fp : Type} [DecidableEq Fp] (c : Ctx Fp) (st : SyncState)
    (hs : st.srcDir = none) :
    sync c st =
      (logAppendLine c.fmtTime (syncStartText c.logger.src c.logger.dst)
          (printIf c.verbose (syncStartText c.src c.dst) st),
        some { path := c.src }) := by
  simp only [sync, logAppendLine_srcDir, printIf_srcDir, hs]

theorem sync_of_none_dst {Fp : Type} [DecidableEq Fp] (c : Ctx Fp) (st : SyncState)
    {srcD : DirListing} (hs : st.srcDir = some srcD) (hd : st.dstDir = none) :
    sync c st =
      (logAppendLine c.fmtTime (syncStartText c.logger.src c.logger.dst)
          (printIf c.verbose (syncStartText c.src c.dst) st),
        some { path := c.dst }) := by
  simp only [sync, logAppendLine_srcDir, printIf_srcDir, hs,
    logAppendLine_dstDir, printIf_dstDir, hd]

theorem sync_of_some {Fp : Type} [DecidableEq Fp] (c : Ctx Fp) (st : SyncState)
    {srcD dstD : DirListing} (hs : st.srcDir = some srcD) (hd : st.dstDir = some dstD) :
    sync c st =
      (logAppendLine c.fmtTime (syncEndText c.logger.src c.logger.dst)
          (printIf c.verbose (syncEndText c.src c.dst)
            { (removeLoop c (listdir srcD) (listdir dstD)
                  (copyLoop c srcD (listdir dstD) (listdir srcD)
                    (logAppendLine c.fmtTime (syncStartText c.logger.src c.logger.dst)
                      (printIf c.verbose (syncStartText c.src c.dst) st), dstD))).1 with
              dstDir := some ((removeLoop c (listdir srcD) (listdir dstD)
                  (copyLoop c srcD (listdir dstD) (listdir srcD)
                    (logAppendLine c.fmtTime (syncStartText c.logger.src c.logger.dst)
                      (printIf c.verbose (syncStartText c.src c.dst) st), dstD))).2) }),
        none) := by
  simp only [sync, logAppendLine_srcDir, printIf_srcDir, hs,
    logAppendLine_dstDir, printIf_dstDir, hd]

theorem sync_fst_srcDir {Fp : Type} [DecidableEq Fp] (c : Ctx Fp) (st : SyncState) :
    (sync c st).1.srcDir = st.srcDir := by
  rcases hs : st.srcDir with _ | srcD
  · rw [sync_of_none_src c st hs]
    simp [hs]
  · rcases hd : st.dstDir with _ | dstD
    · rw [sync_of_none_dst c st hs hd]
      simp [hs]
    · rw [sync_of_some c st hs hd]
      simp [removeLoop_fst_srcDir, copyLoop_fst_srcDir, hs]

theorem sync_fst_dstDir_of_some {Fp : Type} [DecidableEq Fp] (c : Ctx Fp)
    (st : SyncState) {srcD dstD : DirListing} (hs : st.srcDir = some srcD)
    (hd : st.dstDir = some dstD) :
    (sync c st).1.dstDir =
      some ((removeLoop c (listdir srcD) (listdir dstD)
          (copyLoop c srcD (listdir dstD) (listdir srcD)
            (logAppendLine c.fmtTime (syncStartText c.logger.src c.logger.dst)
              (printIf c.verbose (syncStartText c.src c.dst) st), dstD))).2) := by
  rw [sync_of_some c st hs hd]
  simp

theorem sync_post_hash {Fp : Type} [DecidableEq Fp] (c : Ctx Fp) (st : SyncState)
    {srcD dstD : DirListing} (hs : st.srcDir = some srcD) (hd : st.dstDir = some dstD)
    (hns : (listdir srcD).Nodup) :
    ∃ d1, (sync c st).1.dstDir = some d1 ∧
      (∀ n f, lookupFile srcD n = some f →
        (lookupFile d1 n).map (fun g => c.hashFn g.content) =
          some (c.hashFn f.content)) ∧
      (∀ n, lookupFile srcD n = none → lookupFile d1 n = none) := by
  refine ⟨_, sync_fst_dstDir_of_some c st hs hd, ?_, ?_⟩
  · intro n f hf
    have hmem : n ∈ listdir srcD := by
      rw [mem_listdir_iff_isSome, hf]
      rfl
    rw [removeLoop_snd_lookup_of_mem c hmem]
    exact copyLoop_snd_hash_of_mem c srcD (listdir dstD) hf (listdir srcD) _ hns hmem
  · intro n hf
    have hnotmem : n ∉ listdir srcD := (lookupFile_eq_none_iff srcD n).mp hf
    by_cases hdmem : n ∈ listdir dstD
    · exact removeLoop_snd_none_of_mem c hnotmem (listdir dstD) _ hdmem
    · apply removeLoop_snd_none_mono
      rw [copyLoop_snd_lookup_of_not_mem c srcD (listdir dstD) (listdir srcD) _ hnotmem]
      exact (lookupFile_eq_none_iff dstD n).mpr hdmem

/-! ### C1: convergence -/

/-- C1: for every pair of directories whose entries are all regular files
(the model contains only regular files) and with no concurrent external
mutation (the model has none), one call to `sync` succeeds, and afterwards
the destination's set of entry names equals the source's and every
destination file's byte content equals the source file's byte content.
The MD5 digest is the parameter `c.hashFn`; its injectivity renders the
spec's data-model premise that two files have equal content exactly when
their fingerprints are bit-equal. -/
theorem sync_convergence {Fp : Type} [DecidableEq Fp] (c : Ctx Fp) (st : SyncState)
    {srcD dstD : DirListing} (hs : st.srcDir = some srcD) (hd : st.dstDir = some dstD)
    (hns : (listdir srcD).Nodup) (_hnd : (listdir dstD).Nodup)
    (hinj : Function.Injective c.hashFn) :
    (sync c st).2 = none ∧
    ∃ d1, (sync c st).1.dstDir = some d1 ∧
      (∀ n, n ∈ listdir d1 ↔ n ∈ listdir srcD) ∧
      (∀ n, (lookupFile d1 n).map File.content =
        (lookupFile srcD n).map File.content) := by
  obtain ⟨d1, hd1, hhash, hnone⟩ := sync_post_hash c st hs hd hns
  have hcontent : ∀ n, (lookupFile d1 n).map File.content =
      (lookupFile srcD n).map File.content := by
    intro n
    rcases hf : lookupFile srcD n with _ | f
    · rw [hnone n hf]
    · have h1 := hhash n f hf
      rcases hg : lookupFile d1 n with _ | g
      · rw [hg] at h1
        simp at h1
      · rw [hg] at h1
        simp only [Option.map_some', Option.some.injEq] at h1
        have h2 := hinj h1
        simp [hg, hf, h2]
  have hsome : ∀ n, (lookupFile d1 n).isSome = (lookupFile srcD n).isSome := by
    intro n
    have h2 := congrArg Option.isSome (hcontent n)
    simpa using h2
  refine ⟨?_, d1, hd1, ?_, hcontent⟩
  · rw [sync_of_some c st hs hd]
  · intro n
    rw [mem_listdir_iff_isSome, mem_listdir_iff_isSome, hsome n]

/-- Witness for the convergence theorem at a concrete pair of
directories. -/
theorem sync_convergence_witness :
    (sync ctxA stDemo).2 = none ∧
    ∃ d1, (sync ctxA stDemo).1.dstDir = some d1 ∧
      (∀ n, n ∈ listdir d1 ↔ n ∈ listdir srcDemo) ∧
      (∀ n, (lookupFile d1 n).map File.content =
        (lookupFile srcDemo n).map File.content) :=
  sync_convergence ctxA stDemo rfl rfl (by decide) (by decide) (fun a b h => h)

/-! ### C2: idempotence -/

/-- C2: running `sync` twice in a row with no external change in between
makes the second pass perform zero copy and zero remove operations; the
second pass only writes the pass start and pass end log lines and leaves
the destination directory unchanged. -/
theorem sync_idempotent {Fp : Type} [DecidableEq Fp] (c : Ctx Fp) (st : SyncState)
    {srcD dstD : DirListing} (hs : st.srcDir = some srcD) (hd : st.dstDir = some dstD)
    (hns : (listdir srcD).Nodup) (_hnd : (listdir dstD).Nodup) :
    (sync c (sync c st).1).1.events.filter isFileOp =
        (sync c st).1.events.filter isFileOp ∧
    (sync c (sync c st).1).1.dstDir = (sync c st).1.dstDir ∧
    ∃ t1 t2, (sync c (sync c st).1).1.logFile =
      (sync c st).1.logFile ++
        [logLine c.fmtTime t1 (syncStartText c.logger.src c.logger.dst),
          logLine c.fmtTime t2 (syncEndText c.logger.src c.logger.dst)] := by
  obtain ⟨d1, hd1, hhash, hnone⟩ := sync_post_hash c st hs hd hns
  have hs1 : (sync c st).1.srcDir = some srcD := by
    rw [sync_fst_srcDir, hs]
  have hcond1 : ∀ file ∈ listdir srcD, file ∈ listdir d1 ∧
      hash_file c.hashFn srcD file = hash_file c.hashFn d1 file := by
    intro file hmem
    obtain ⟨f, hf⟩ :=
      Option.isSome_iff_exists.mp ((mem_listdir_iff_isSome srcD file).mp hmem)
    have h1 := hhash file f hf
    constructor
    · rw [mem_listdir_iff_isSome]
      rcases hg : lookupFile d1 file with _ | g
      · rw [hg] at h1
        simp at h1
      · simp
    · simp [hash_file, hf, h1]
  have hcond2 : ∀ file ∈ listdir d1, file ∈ listdir srcD := by
    intro file hmem
    by_contra hnm
    have h0 := hnone file ((lookupFile_eq_none_iff srcD file).mpr hnm)
    rw [lookupFile_eq_none_iff] at h0
    exact h0 hmem
  rw [sync_of_some c (sync c st).1 hs1 hd1]
  rw [copyLoop_id c srcD (listdir d1) (listdir srcD) _ hcond1]
  rw [removeLoop_id c (listdir srcD) (listdir d1) _ hcond2]
  refine ⟨?_, ?_, (sync c st).1.clock, (sync c st).1.clock + 1, ?_⟩
  · simp [List.filter_append, isFileOp, apply_ite (List.filter isFileOp)]
  · simp [hd1]
  · simp

/-- Witness for the idempotence theorem at a concrete pair of
directories. -/
theorem sync_idempotent_witness :
    (sync ctxA (sync ctxA stDemo).1).1.events.filter isFileOp =
        (sync ctxA stDemo).1.events.filter isFileOp ∧
    (sync ctxA (sync ctxA stDemo).1).1.dstDir = (sync ctxA stDemo).1.dstDir ∧
    ∃ t1 t2, (sync ctxA (sync ctxA stDemo).1).1.logFile =
      (sync ctxA stDemo).1.logFile ++
        [logLine ctxA.fmtTime t1 (syncStartText ctxA.logger.src ctxA.logger.dst),
          logLine ctxA.fmtTime t2 (syncEndText ctxA.logger.src ctxA.logger.dst)] :=
  sync_idempotent ctxA stDemo rfl rfl (by decide) (by decide)

/-! ### Shapes of the traces the two loops emit -/

theorem copyLoop_fst_events {Fp : Type} [DecidableEq Fp] (c : Ctx Fp)
    (srcD : DirListing) (dfiles : List String) (files : List String) :
    ∀ acc : SyncState × DirListing,
      ∃ E, (copyLoop c srcD dfiles files acc).1.events = acc.1.events ++ E ∧
        ∀ e ∈ E, (∃ s, e = Event.consoleLine s) ∨ (∃ l, e = Event.logAppend l) ∨
          ∃ m, m ∈ files ∧ e = Event.copyFile m := by
  induction files with
  | nil => intro acc; exact ⟨[], by simp [copyLoop], by simp⟩
  | cons f0 fs ih =>
      intro acc
      obtain ⟨E2, hE2, hE2s⟩ := ih (copyStep c srcD dfiles f0 acc)
      have hstep : ∃ E1, (copyStep c srcD dfiles f0 acc).1.events =
          acc.1.events ++ E1 ∧
          ∀ e ∈ E1, (∃ s, e = Event.consoleLine s) ∨ (∃ l, e = Event.logAppend l) ∨
            e = Event.copyFile f0 := by
        have hcopy : ∀ acc' : SyncState × DirListing,
            ∃ E1, (doCopy c srcD f0 acc').1.events = acc'.1.events ++ E1 ∧
            ∀ e ∈ E1, (∃ s, e = Event.consoleLine s) ∨
              (∃ l, e = Event.logAppend l) ∨ e = Event.copyFile f0 := by
          intro acc'
          rcases hf : lookupFile srcD f0 with _ | f
          · refine ⟨_, doCopy_events_none c srcD f0 acc' hf, ?_⟩
            intro e he
            rcases List.mem_append.mp he with h | h
            · rcases c.verbose with _ | _ <;> simp_all
            · simp at h
              exact Or.inr (Or.inl ⟨_, h⟩)
          · refine ⟨_, doCopy_events_some c srcD f0 acc' f hf, ?_⟩
            intro e he
            rcases List.mem_append.mp he with h | h
            · rcases c.verbose with _ | _ <;> simp_all
            · rcases List.mem_cons.mp h with h | h
              · exact Or.inr (Or.inl ⟨_, h⟩)
              · simp at h
                exact Or.inr (Or.inr h)
        by_cases h1 : f0 ∉ dfiles
        · have := hcopy acc
          simpa [copyStep, h1] using this
        · by_cases h2 : hash_file c.hashFn srcD f0 ≠ hash_file c.hashFn acc.2 f0
          · have := hcopy acc
            simpa [copyStep, h1, h2] using this
          · exact ⟨[], by simp [copyStep, h1, h2], by simp⟩
      obtain ⟨E1, hE1, hE1s⟩ := hstep
      refine ⟨E1 ++ E2, ?_, ?_⟩
      · simp only [copyLoop]
        rw [hE2, hE1, List.append_assoc]
      · intro e he
        rcases List.mem_append.mp he with h | h
        · rcases hE1s e h with h' | h' | h'
          · exact Or.inl h'
          · exact Or.inr (Or.inl h')
          · exact Or.inr (Or.inr ⟨f0, List.mem_cons_self f0 fs, h'⟩)
        · rcases hE2s e h with h' | h' | ⟨m, hm, h'⟩
          · exact Or.inl h'
          · exact Or.inr (Or.inl h')
          · exact Or.inr (Or.inr ⟨m, List.mem_cons_of_mem f0 hm, h'⟩)

theorem removeLoop_fst_events {Fp : Type} (c : Ctx Fp) (sfiles : List String)
    (files : List String) :
    ∀ acc : SyncState × DirListing,
      ∃ E, (removeLoop c sfiles files acc).1.events = acc.1.events ++ E ∧
        ∀ e ∈ E, (∃ s, e = Event.consoleLine s) ∨ (∃ l, e = Event.logAppend l) ∨
          ∃ m, m ∈ files ∧ m ∉ sfiles ∧ e = Event.removeFile m := by
  induction files with
  | nil => intro acc; exact ⟨[], by simp [removeLoop], by simp⟩
  | cons f0 fs ih =>
      intro acc
      obtain ⟨E2, hE2, hE2s⟩ := ih (removeStep c sfiles f0 acc)
      have hstep : ∃ E1, (removeStep c sfiles f0 acc).1.events =
          acc.1.events ++ E1 ∧
          ∀ e ∈ E1, (∃ s, e = Event.consoleLine s) ∨ (∃ l, e = Event.logAppend l) ∨
            (f0 ∉ sfiles ∧ e = Event.removeFile f0) := by
        by_cases h1 : f0 ∉ sfiles
        · refine ⟨(if c.verbose then [Event.consoleLine (removeText f0 c.dst)] else []) ++
            [Event.logAppend (logLine c.fmtTime acc.1.clock (removeText f0 c.logger.dst)),
              Event.removeFile f0], ?_, ?_⟩
          · simp [removeStep, h1, doRemove_events]
          intro e he
          rcases List.mem_append.mp he with h | h
          · rcases c.verbose with _ | _ <;> simp_all
          · rcases List.mem_cons.mp h with h | h
            · exact Or.inr (Or.inl ⟨_, h⟩)
            · simp at h
              exact Or.inr (Or.inr ⟨h1, h⟩)
        · exact ⟨[], by simp [removeStep, h1], by simp⟩
      obtain ⟨E1, hE1, hE1s⟩ := hstep
      refine ⟨E1 ++ E2, ?_, ?_⟩
      · simp only [removeLoop]
        rw [hE2, hE1, List.append_assoc]
      · intro e he
        rcases List.mem_append.mp he with h | h
        · rcases hE1s e h with h' | h' | ⟨hns, h'⟩
          · exact Or.inl h'
          · exact Or.inr (Or.inl h')
          · exact Or.inr (Or.inr ⟨f0, List.mem_cons_self f0 fs, hns, h'⟩)
        · rcases hE2s e h with h' | h' | ⟨m, hm, hns, h'⟩
          · exact Or.inl h'
          · exact Or.inr (Or.inl h')
          · exact Or.inr (Or.inr ⟨m, List.mem_cons_of_mem f0 hm, hns, h'⟩)

theorem mem_metaBlock {v : Bool} {s l : String} {e : Event}
    (he : e ∈ (if v then [Event.consoleLine s] else []) ++ [Event.logAppend l]) :
    (∃ s2, e = Event.consoleLine s2) ∨ ∃ l2, e = Event.logAppend l2 := by
  rcases List.mem_append.mp he with h | h
  · rcases v with _ | _
    · simp at h
    · simp at h
      exact Or.inl ⟨s, h⟩
  · simp at h
    exact Or.inr ⟨l, h⟩

theorem sync_fst_events_of_some {Fp : Type} [DecidableEq Fp] (c : Ctx Fp)
    (st : SyncState) {srcD dstD : DirListing} (hs : st.srcDir = some srcD)
    (hd : st.dstDir = some dstD) :
    ∃ SB CE RE EB,
      (sync c st).1.events = st.events ++ SB ++ CE ++ RE ++ EB ∧
      (∀ e ∈ SB, (∃ s, e = Event.consoleLine s) ∨ ∃ l, e = Event.logAppend l) ∧
      (∀ e ∈ CE, (∃ s, e = Event.consoleLine s) ∨ (∃ l, e = Event.logAppend l) ∨
        ∃ m, m ∈ listdir srcD ∧ e = Event.copyFile m) ∧
      (∀ e ∈ RE, (∃ s, e = Event.consoleLine s) ∨ (∃ l, e = Event.logAppend l) ∨
        ∃ m, m ∈ listdir dstD ∧ m ∉ listdir srcD ∧ e = Event.removeFile m) ∧
      (∀ e ∈ EB, (∃ s, e = Event.consoleLine s) ∨ ∃ l, e = Event.logAppend l) := by
  rw [sync_of_some c st hs hd]
  obtain ⟨CE, hCE, hCEs⟩ := copyLoop_fst_events c srcD (listdir dstD) (listdir srcD)
    (logAppendLine c.fmtTime (syncStartText c.logger.src c.logger.dst)
      (printIf c.verbose (syncStartText c.src c.dst) st), dstD)
  obtain ⟨RE, hRE, hREs⟩ := removeLoop_fst_events c (listdir srcD) (listdir dstD)
    (copyLoop c srcD (listdir dstD) (listdir srcD)
      (logAppendLine c.fmtTime (syncStartText c.logger.src c.logger.dst)
        (printIf c.verbose (syncStartText c.src c.dst) st), dstD))
  refine ⟨(if c.verbose then [Event.consoleLine (syncStartText c.src c.dst)] else []) ++
      [Event.logAppend (logLine c.fmtTime st.clock
        (syncStartText c.logger.src c.logger.dst))],
    CE, RE,
    (if c.verbose then [Event.consoleLine (syncEndText c.src c.dst)] else []) ++
      [Event.logAppend (logLine c.fmtTime
        ((removeLoop c (listdir srcD) (listdir dstD)
          (copyLoop c srcD (listdir dstD) (listdir srcD)
            (logAppendLine c.fmtTime (syncStartText c.logger.src c.logger.dst)
              (printIf c.verbose (syncStartText c.src c.dst) st), dstD))).1.clock)
        (syncEndText c.logger.src c.logger.dst))],
    ?_, ?_, hCEs, hREs, ?_⟩
  · simp only [logAppendLine_events, printIf_events, printIf_clock, logAppendLine_clock]
    rw [hRE, hCE]
    simp [List.append_assoc]
  · intro e he
    exact mem_metaBlock he
  · intro e he
    exact mem_metaBlock he

/-! ### C4: all creates and updates precede every delete -/

/-- C4: in every pass, the event trace splits into a prefix that contains
no removal and a suffix that contains no copy: every create or update
operation is emitted and applied before any delete operation. -/
theorem sync_copies_before_removes {Fp : Type} [DecidableEq Fp] (c : Ctx Fp)
    (st : SyncState) (hev : st.events = []) :
    ∃ E1 E2, (sync c st).1.events = E1 ++ E2 ∧
      (∀ n, Event.removeFile n ∉ E1) ∧ (∀ n, Event.copyFile n ∉ E2) := by
  rcases hs : st.srcDir with _ | srcD
  · rw [sync_of_none_src c st hs]
    refine ⟨(if c.verbose then [Event.consoleLine (syncStartText c.src c.dst)] else []) ++
      [Event.logAppend (logLine c.fmtTime st.clock
        (syncStartText c.logger.src c.logger.dst))], [], ?_, ?_, ?_⟩
    · simp [hev]
    · intro n hmem
      rcases mem_metaBlock hmem with ⟨s, h⟩ | ⟨l, h⟩ <;> cases h
    · intro n hmem
      cases hmem
  · rcases hd : st.dstDir with _ | dstD
    · rw [sync_of_none_dst c st hs hd]
      refine ⟨(if c.verbose then [Event.consoleLine (syncStartText c.src c.dst)] else []) ++
        [Event.logAppend (logLine c.fmtTime st.clock
          (syncStartText c.logger.src c.logger.dst))], [], ?_, ?_, ?_⟩
      · simp [hev]
      · intro n hmem
        rcases mem_metaBlock hmem with ⟨s, h⟩ | ⟨l, h⟩ <;> cases h
      · intro n hmem
        cases hmem
    · obtain ⟨SB, CE, RE, EB, hev2, hSB, hCE, hRE, hEB⟩ :=
        sync_fst_events_of_some c st hs hd
      refine ⟨SB ++ CE, RE ++ EB, ?_, ?_, ?_⟩
      · rw [hev2, hev]
        simp [List.append_assoc]
      · intro n hmem
        rcases List.mem_append.mp hmem with h | h
        · rcases hSB _ h with ⟨s, h'⟩ | ⟨l, h'⟩ <;> cases h'
        · rcases hCE _ h with ⟨s, h'⟩ | ⟨l, h'⟩ | ⟨m, _, h'⟩ <;> cases h'
      · intro n hmem
        rcases List.mem_append.mp hmem with h | h
        · rcases hRE _ h with ⟨s, h'⟩ | ⟨l, h'⟩ | ⟨m, _, _, h'⟩ <;> cases h'
        · rcases hEB _ h with ⟨s, h'⟩ | ⟨l, h'⟩ <;> cases h'

/-- Witness for the operation-order theorem on a concrete pass. -/
theorem sync_copies_before_removes_witness :
    ∃ E1 E2, (sync ctxA stDemo).1.events = E1 ++ E2 ∧
      (∀ n, Event.removeFile n ∉ E1) ∧ (∀ n, Event.copyFile n ∉ E2) :=
  sync_copies_before_removes ctxA stDemo rfl

/-! ### C3: a shared file is copied exactly when the digests differ -/

theorem copyStep_copyFile_mem_of_ne {Fp : Type} [DecidableEq Fp] (c : Ctx Fp)
    (srcD : DirListing) (dfiles : List String) {n f0 : String} (hn : n ≠ f0)
    (acc : SyncState × DirListing) :
    (Event.copyFile n ∈ (copyStep c srcD dfiles f0 acc).1.events ↔
      Event.copyFile n ∈ acc.1.events) := by
  have hdo : ∀ acc' : SyncState × DirListing,
      (Event.copyFile n ∈ (doCopy c srcD f0 acc').1.events ↔
        Event.copyFile n ∈ acc'.1.events) := by
    intro acc'
    rcases hf : lookupFile srcD f0 with _ | f
    · rw [doCopy_events_none c srcD f0 acc' hf]
      constructor
      · intro h
        rcases List.mem_append.mp h with h | h
        · exact h
        · rcases mem_metaBlock h with ⟨s, h'⟩ | ⟨l, h'⟩ <;> cases h'
      · intro h
        exact List.mem_append.mpr (Or.inl h)
    · rw [doCopy_events_some c srcD f0 acc' f hf]
      constructor
      · intro h
        rcases List.mem_append.mp h with h | h
        · exact h
        · rcases List.mem_append.mp h with h | h
          · rcases c.verbose with _ | _ <;> simp_all
          · rcases List.mem_cons.mp h with h | h
            · cases h
            · simp at h
              exact absurd h hn
      · intro h
        exact List.mem_append.mpr (Or.inl h)
  by_cases h1 : f0 ∉ dfiles
  · simpa [copyStep, h1] using hdo acc
  · by_cases h2 : hash_file c.hashFn srcD f0 ≠ hash_file c.hashFn acc.2 f0
    · simpa [copyStep, h1, h2] using hdo acc
    · simp [copyStep, h1, h2]

theorem copyLoop_copyFile_mem_iff {Fp : Type} [DecidableEq Fp] (c : Ctx Fp)
    (srcD : DirListing) (dfiles : List String) {n : String} {f : File}
    (hf : lookupFile srcD n = some f) (hdn : n ∈ dfiles) (files : List String) :
    ∀ (acc : SyncState × DirListing) (g : File), files.Nodup → n ∈ files →
      lookupFile acc.2 n = some g →
      (Event.copyFile n ∈ (copyLoop c srcD dfiles files acc).1.events ↔
        Event.copyFile n ∈ acc.1.events ∨
          c.hashFn f.content ≠ c.hashFn g.content) := by
  induction files with
  | nil => intro acc g _ h; cases h
  | cons f0 fs ih =>
      intro acc g hnd hmem hg
      obtain ⟨hnotin, hndfs⟩ := List.nodup_cons.mp hnd
      simp only [copyLoop]
      by_cases hn : f0 = n
      · subst hn
        obtain ⟨E2, hE2, hE2s⟩ :=
          copyLoop_fst_events c srcD dfiles fs (copyStep c srcD dfiles f0 acc)
        have hnotE2 : Event.copyFile f0 ∉ E2 := by
          intro hin
          rcases hE2s _ hin with ⟨s, h'⟩ | ⟨l, h'⟩ | ⟨m, hm, h'⟩
          · cases h'
          · cases h'
          · injection h' with hmeq
            subst hmeq
            exact hnotin hm
        rw [hE2]
        have hmem_iff : Event.copyFile f0 ∈
            (copyStep c srcD dfiles f0 acc).1.events ++ E2 ↔
            Event.copyFile f0 ∈ (copyStep c srcD dfiles f0 acc).1.events := by
          constructor
          · intro h
            rcases List.mem_append.mp h with h | h
            · exact h
            · exact absurd h hnotE2
          · intro h
            exact List.mem_append.mpr (Or.inl h)
        rw [hmem_iff]
        have h1 : ¬f0 ∉ dfiles := by simpa using hdn
        by_cases h2 : hash_file c.hashFn srcD f0 ≠ hash_file c.hashFn acc.2 f0
        · have h2' : c.hashFn f.content ≠ c.hashFn g.content := by
            intro hcc
            apply h2
            simp [hash_file, hf, hg, hcc]
          have hstep : copyStep c srcD dfiles f0 acc = doCopy c srcD f0 acc := by
            simp [copyStep, h1, h2]
          rw [hstep, doCopy_events_some c srcD f0 acc f hf]
          constructor
          · intro _
            exact Or.inr h2'
          · intro _
            refine List.mem_append.mpr (Or.inr ?_)
            refine List.mem_append.mpr (Or.inr ?_)
            simp
        · have heq : hash_file c.hashFn srcD f0 = hash_file c.hashFn acc.2 f0 :=
            not_not.mp h2
          have heq' : c.hashFn f.content = c.hashFn g.content := by
            simpa [hash_file, hf, hg] using heq
          have hstep : copyStep c srcD dfiles f0 acc = acc := by
            simp [copyStep, h1, h2]
          rw [hstep]
          simp [heq']
      · have hmem' : n ∈ fs := by
          rcases List.mem_cons.mp hmem with h | h
          · exact absurd h.symm hn
          · exact h
        have hg' : lookupFile (copyStep c srcD dfiles f0 acc).2 n = some g := by
          rw [copyStep_snd_lookup_of_ne c srcD dfiles (fun hh => hn hh.symm)]
          exact hg
        rw [ih _ g hndfs hmem' hg']
        rw [copyStep_copyFile_mem_of_ne c srcD dfiles (fun hh => hn hh.symm)]

/-- C3: for a name present in both snapshots, the pass copies the file from
source to destination exactly when the digests of the two files' full byte
contents differ; in particular a shared file with identical content is
never copied. -/
theorem sync_update_iff_digest_differs {Fp : Type} [DecidableEq Fp] (c : Ctx Fp)
    (st : SyncState) {srcD dstD : DirListing} {n : String} {f g : File}
    (hs : st.srcDir = some srcD) (hd : st.dstDir = some dstD)
    (hns : (listdir srcD).Nodup) (_hnd : (listdir dstD).Nodup)
    (hev : st.events = [])
    (hf : lookupFile srcD n = some f) (hg : lookupFile dstD n = some g) :
    (Event.copyFile n ∈ (sync c st).1.events ↔
      c.hashFn f.content ≠ c.hashFn g.content) := by
  have hnmemS : n ∈ listdir srcD := by
    rw [mem_listdir_iff_isSome, hf]
    rfl
  have hnmemD : n ∈ listdir dstD := by
    rw [mem_listdir_iff_isSome, hg]
    rfl
  rw [sync_of_some c st hs hd]
  obtain ⟨RE, hRE, hREs⟩ := removeLoop_fst_events c (listdir srcD) (listdir dstD)
    (copyLoop c srcD (listdir dstD) (listdir srcD)
      (logAppendLine c.fmtTime (syncStartText c.logger.src c.logger.dst)
        (printIf c.verbose (syncStartText c.src c.dst) st), dstD))
  have hloop := copyLoop_copyFile_mem_iff c srcD (listdir dstD) hf hnmemD
    (listdir srcD)
    (logAppendLine c.fmtTime (syncStartText c.logger.src c.logger.dst)
      (printIf c.verbose (syncStartText c.src c.dst) st), dstD) g hns hnmemS hg
  have hre_not : Event.copyFile n ∉ RE := by
    intro hin
    rcases hREs _ hin with ⟨s, h'⟩ | ⟨l, h'⟩ | ⟨m, _, _, h'⟩ <;> cases h'
  have hstart_not : Event.copyFile n ∉
      (logAppendLine c.fmtTime (syncStartText c.logger.src c.logger.dst)
        (printIf c.verbose (syncStartText c.src c.dst) st)).events := by
    simp only [logAppendLine_events, printIf_events, hev, List.nil_append]
    intro hin
    rcases mem_metaBlock hin with ⟨s, h'⟩ | ⟨l, h'⟩ <;> cases h'
  have hv : ∀ s : String, Event.copyFile n ∈
      (if c.verbose then [Event.consoleLine s] else []) → False := by
    intro s hin
    rcases c.verbose with _ | _ <;> simp_all
  simp only [logAppendLine_events, printIf_events]
  rw [hRE]
  simp only [List.mem_append, List.mem_singleton]
  rw [hloop]
  constructor
  · intro hmem
    rcases hmem with (((ha | hb) | hc) | hd2) | he
    · exact absurd ha hstart_not
    · exact hb
    · exact absurd hc hre_not
    · exact (hv _ hd2).elim
    · cases he
  · intro hne
    exact Or.inl (Or.inl (Or.inl (Or.inr hne)))

/-- Witness for the update-rule theorem: `b.txt` is shared with differing
content, and the pass does copy it. -/
theorem sync_update_iff_digest_differs_witness :
    (Event.copyFile "b.txt" ∈ (sync ctxA stDemo).1.events ↔
      ctxA.hashFn (File.mk [119] 420 12).content ≠
        ctxA.hashFn (File.mk [87] 384 3).content) :=
  sync_update_iff_digest_differs ctxA stDemo rfl rfl (by decide) (by decide) rfl
    (by decide) (by decide)

/-! ### C5: missing directory aborts the pass before any file operation -/

/-- C5: when the source or the destination path is missing or unreadable at
snapshot time, the pass fails with a directory-access error, no file copy
and no removal is performed, the destination is untouched, and the missing
directory is never treated as an empty snapshot. -/
theorem sync_directory_access_error {Fp : Type} [DecidableEq Fp] (c : Ctx Fp)
    (st : SyncState) (h : st.srcDir = none ∨ st.dstDir = none) :
    ((sync c st).2).isSome ∧
    (sync c st).1.dstDir = st.dstDir ∧
    ∃ E, (sync c st).1.events = st.events ++ E ∧
      (∀ n, Event.copyFile n ∉ E) ∧ (∀ n, Event.removeFile n ∉ E) := by
  rcases hs : st.srcDir with _ | srcD
  · rw [sync_of_none_src c st hs]
    refine ⟨rfl, by simp, ?_⟩
    refine ⟨(if c.verbose then [Event.consoleLine (syncStartText c.src c.dst)] else []) ++
      [Event.logAppend (logLine c.fmtTime st.clock
        (syncStartText c.logger.src c.logger.dst))], ?_, ?_, ?_⟩
    · simp [List.append_assoc]
    · intro n hmem
      rcases mem_metaBlock hmem with ⟨s, h'⟩ | ⟨l, h'⟩ <;> cases h'
    · intro n hmem
      rcases mem_metaBlock hmem with ⟨s, h'⟩ | ⟨l, h'⟩ <;> cases h'
  · rcases h with h | hdn
    · rw [hs] at h
      cases h
    · rw [sync_of_none_dst c st hs hdn]
      refine ⟨rfl, by simp, ?_⟩
      refine ⟨(if c.verbose then [Event.consoleLine (syncStartText c.src c.dst)] else []) ++
        [Event.logAppend (logLine c.fmtTime st.clock
          (syncStartText c.logger.src c.logger.dst))], ?_, ?_, ?_⟩
      · simp [List.append_assoc]
      · intro n hmem
        rcases mem_metaBlock hmem with ⟨s, h'⟩ | ⟨l, h'⟩ <;> cases h'
      · intro n hmem
        rcases mem_metaBlock hmem with ⟨s, h'⟩ | ⟨l, h'⟩ <;> cases h'

/-- Witness for the directory-access-error theorem: a run whose source
directory is missing. -/
theorem sync_directory_access_error_witness :
    ((sync ctxA stMissingSrc).2).isSome ∧
    (sync ctxA stMissingSrc).1.dstDir = stMissingSrc.dstDir ∧
    ∃ E, (sync ctxA stMissingSrc).1.events = stMissingSrc.events ++ E ∧
      (∀ n, Event.copyFile n ∉ E) ∧ (∀ n, Event.removeFile n ∉ E) :=
  sync_directory_access_error ctxA stMissingSrc (Or.inl rfl)

/-! ### Shapes of the log lines the two loops append -/

theorem copyLoop_fst_logFile {Fp : Type} [DecidableEq Fp] (c : Ctx Fp)
    (srcD : DirListing) (dfiles : List String) (files : List String) :
    ∀ acc : SyncState × DirListing,
      ∃ L, (copyLoop c srcD dfiles files acc).1.logFile = acc.1.logFile ++ L ∧
        ∀ l ∈ L, ∃ t m, l = logLine c.fmtTime t (copyText m c.logger.src c.logger.dst) := by
  induction files with
  | nil => intro acc; exact ⟨[], by simp [copyLoop], by simp⟩
  | cons f0 fs ih =>
      intro acc
      obtain ⟨L2, hL2, hL2s⟩ := ih (copyStep c srcD dfiles f0 acc)
      have hstep : ∃ L1, (copyStep c srcD dfiles f0 acc).1.logFile =
          acc.1.logFile ++ L1 ∧
          ∀ l ∈ L1, ∃ t, l = logLine c.fmtTime t (copyText f0 c.logger.src c.logger.dst) := by
        by_cases h1 : f0 ∉ dfiles
        · refine ⟨[logLine c.fmtTime acc.1.clock
            (copyText f0 c.logger.src c.logger.dst)], ?_, ?_⟩
          · simp [copyStep, h1, doCopy_fst_logFile]
          · intro l hl
            simp at hl
            exact ⟨acc.1.clock, hl⟩
        · by_cases h2 : hash_file c.hashFn srcD f0 ≠ hash_file c.hashFn acc.2 f0
          · refine ⟨[logLine c.fmtTime acc.1.clock
              (copyText f0 c.logger.src c.logger.dst)], ?_, ?_⟩
            · simp [copyStep, h1, h2, doCopy_fst_logFile]
            · intro l hl
              simp at hl
              exact ⟨acc.1.clock, hl⟩
          · exact ⟨[], by simp [copyStep, h1, h2], by simp⟩
      obtain ⟨L1, hL1, hL1s⟩ := hstep
      refine ⟨L1 ++ L2, ?_, ?_⟩
      · simp only [copyLoop]
        rw [hL2, hL1, List.append_assoc]
      · intro l hl
        rcases List.mem_append.mp hl with h | h
        · obtain ⟨t, hte⟩ := hL1s l h
          exact ⟨t, f0, hte⟩
        · exact hL2s l h

theorem removeLoop_fst_logFile {Fp : Type} (c : Ctx Fp) (sfiles : List String)
    (files : List String) :
    ∀ acc : SyncState × DirListing,
      ∃ L, (removeLoop c sfiles files acc).1.logFile = acc.1.logFile ++ L ∧
        ∀ l ∈ L, ∃ t m, l = logLine c.fmtTime t (removeText m c.logger.dst) := by
  induction files with
  | nil => intro acc; exact ⟨[], by simp [removeLoop], by simp⟩
  | cons f0 fs ih =>
      intro acc
      obtain ⟨L2, hL2, hL2s⟩ := ih (removeStep c sfiles f0 acc)
      have hstep : ∃ L1, (removeStep c sfiles f0 acc).1.logFile =
          acc.1.logFile ++ L1 ∧
          ∀ l ∈ L1, ∃ t, l = logLine c.fmtTime t (removeText f0 c.logger.dst) := by
        by_cases h1 : f0 ∉ sfiles
        · refine ⟨[logLine c.fmtTime acc.1.clock (removeText f0 c.logger.dst)], ?_, ?_⟩
          · simp [removeStep, h1, doRemove_fst_logFile]
          · intro l hl
            simp at hl
            exact ⟨acc.1.clock, hl⟩
        · exact ⟨[], by simp [removeStep, h1], by simp⟩
      obtain ⟨L1, hL1, hL1s⟩ := hstep
      refine ⟨L1 ++ L2, ?_, ?_⟩
      · simp only [removeLoop]
        rw [hL2, hL1, List.append_assoc]
      · intro l hl
        rcases List.mem_append.mp hl with h | h
        · obtain ⟨t, hte⟩ := hL1s l h
          exact ⟨t, f0, hte⟩
        · exact hL2s l h

theorem sync_fst_logFile_of_some {Fp : Type} [DecidableEq Fp] (c : Ctx Fp)
    (st : SyncState) {srcD dstD : DirListing} (hs : st.srcDir = some srcD)
    (hd : st.dstDir = some dstD) :
    ∃ CL RL tend,
      (sync c st).1.logFile =
        st.logFile ++
          [logLine c.fmtTime st.clock (syncStartText c.logger.src c.logger.dst)] ++
          CL ++ RL ++
          [logLine c.fmtTime tend (syncEndText c.logger.src c.logger.dst)] ∧
      (∀ l ∈ CL, ∃ t m, l = logLine c.fmtTime t (copyText m c.logger.src c.logger.dst)) ∧
      (∀ l ∈ RL, ∃ t m, l = logLine c.fmtTime t (removeText m c.logger.dst)) := by
  rw [sync_of_some c st hs hd]
  obtain ⟨CL, hCL, hCLs⟩ := copyLoop_fst_logFile c srcD (listdir dstD) (listdir srcD)
    (logAppendLine c.fmtTime (syncStartText c.logger.src c.logger.dst)
      (printIf c.verbose (syncStartText c.src c.dst) st), dstD)
  obtain ⟨RL, hRL, hRLs⟩ := removeLoop_fst_logFile c (listdir srcD) (listdir dstD)
    (copyLoop c srcD (listdir dstD) (listdir srcD)
      (logAppendLine c.fmtTime (syncStartText c.logger.src c.logger.dst)
        (printIf c.verbose (syncStartText c.src c.dst) st), dstD))
  refine ⟨CL, RL,
    (removeLoop c (listdir srcD) (listdir dstD)
      (copyLoop c srcD (listdir dstD) (listdir srcD)
        (logAppendLine c.fmtTime (syncStartText c.logger.src c.logger.dst)
          (printIf c.verbose (syncStartText c.src c.dst) st), dstD))).1.clock,
    ?_, hCLs, hRLs⟩
  simp only [logAppendLine_logFile, printIf_logFile, printIf_clock, logAppendLine_clock]
  rw [hRL, hCL]
  simp [List.append_assoc]

/-! ### C7: the log contract -/

/-- C7: `Logger.log` appends exactly one line in the
`<timestamp>: <message>\n` format and never truncates or rewrites earlier
lines; every line a completed pass appends is one of the four messages
(pass start, copy, remove, pass end); and every completed pass, including
one that performs no operation, logs a pass-start line first and a
pass-end line last. -/
theorem sync_log_contract {Fp : Type} [DecidableEq Fp] (c : Ctx Fp) (st : SyncState)
    {srcD dstD : DirListing} (hs : st.srcDir = some srcD)
    (hd : st.dstDir = some dstD) :
    (∀ (msg : String) (st2 : SyncState),
      (logAppendLine c.fmtTime msg st2).logFile =
        st2.logFile ++ [logLine c.fmtTime st2.clock msg]) ∧
    ∃ L, (sync c st).1.logFile = st.logFile ++ L ∧
      (∀ l ∈ L, ∃ t,
        l = logLine c.fmtTime t (syncStartText c.logger.src c.logger.dst) ∨
        l = logLine c.fmtTime t (syncEndText c.logger.src c.logger.dst) ∨
        (∃ fl, l = logLine c.fmtTime t (copyText fl c.logger.src c.logger.dst)) ∨
        (∃ fl, l = logLine c.fmtTime t (removeText fl c.logger.dst))) ∧
      L.head? = some (logLine c.fmtTime st.clock
        (syncStartText c.logger.src c.logger.dst)) ∧
      ∃ tend, L.getLast? = some (logLine c.fmtTime tend
        (syncEndText c.logger.src c.logger.dst)) := by
  refine ⟨fun msg st2 => rfl, ?_⟩
  obtain ⟨CL, RL, tend, hL, hCLs, hRLs⟩ := sync_fst_logFile_of_some c st hs hd
  refine ⟨[logLine c.fmtTime st.clock (syncStartText c.logger.src c.logger.dst)] ++
    CL ++ RL ++ [logLine c.fmtTime tend (syncEndText c.logger.src c.logger.dst)],
    ?_, ?_, ?_, tend, ?_⟩
  · rw [hL]
    simp [List.append_assoc]
  · intro l hl
    rcases List.mem_append.mp hl with h | h
    · rcases List.mem_append.mp h with h | h
      · rcases List.mem_append.mp h with h | h
        · simp at h
          exact ⟨st.clock, Or.inl h⟩
        · obtain ⟨t, m, he⟩ := hCLs l h
          exact ⟨t, Or.inr (Or.inr (Or.inl ⟨m, he⟩))⟩
      · obtain ⟨t, m, he⟩ := hRLs l h
        exact ⟨t, Or.inr (Or.inr (Or.inr ⟨m, he⟩))⟩
    · simp at h
      exact ⟨tend, Or.inr (Or.inl h)⟩
  · simp
  · rw [List.getLast?_concat]

/-- Witness for the log-contract theorem on a concrete completed pass. -/
theorem sync_log_contract_witness :
    (∀ (msg : String) (st2 : SyncState),
      (logAppendLine ctxA.fmtTime msg st2).logFile =
        st2.logFile ++ [logLine ctxA.fmtTime st2.clock msg]) ∧
    ∃ L, (sync ctxA stDemo).1.logFile = stDemo.logFile ++ L ∧
      (∀ l ∈ L, ∃ t,
        l = logLine ctxA.fmtTime t (syncStartText ctxA.logger.src ctxA.logger.dst) ∨
        l = logLine ctxA.fmtTime t (syncEndText ctxA.logger.src ctxA.logger.dst) ∨
        (∃ fl, l = logLine ctxA.fmtTime t
          (copyText fl ctxA.logger.src ctxA.logger.dst)) ∨
        (∃ fl, l = logLine ctxA.fmtTime t (removeText fl ctxA.logger.dst))) ∧
      L.head? = some (logLine ctxA.fmtTime stDemo.clock
        (syncStartText ctxA.logger.src ctxA.logger.dst)) ∧
      ∃ tend, L.getLast? = some (logLine ctxA.fmtTime tend
        (syncEndText ctxA.logger.src ctxA.logger.dst)) :=
  sync_log_contract ctxA stDemo rfl rfl

/-! ### C9: the source directory is never mutated -/

/-- C9: a pass never creates, deletes, or modifies any entry of the source
directory: the source tree of the resulting state is exactly the input
source tree, and the log file is only extended; all directory mutation
targets the destination. -/
theorem sync_source_frame {Fp : Type} [DecidableEq Fp] (c : Ctx Fp) (st : SyncState) :
    (sync c st).1.srcDir = st.srcDir ∧
    ∃ L, (sync c st).1.logFile = st.logFile ++ L := by
  refine ⟨sync_fst_srcDir c st, ?_⟩
  rcases hs : st.srcDir with _ | srcD
  · rw [sync_of_none_src c st hs]
    exact ⟨[logLine c.fmtTime st.clock (syncStartText c.logger.src c.logger.dst)],
      by simp⟩
  · rcases hd : st.dstDir with _ | dstD
    · rw [sync_of_none_dst c st hs hd]
      exact ⟨[logLine c.fmtTime st.clock (syncStartText c.logger.src c.logger.dst)],
        by simp⟩
    · obtain ⟨CL, RL, tend, hL, _, _⟩ := sync_fst_logFile_of_some c st hs hd
      refine ⟨[logLine c.fmtTime st.clock (syncStartText c.logger.src c.logger.dst)] ++
        CL ++ RL ++
        [logLine c.fmtTime tend (syncEndText c.logger.src c.logger.dst)], ?_⟩
      rw [hL]
      simp [List.append_assoc]

/-! ### C6: the verbose flag only duplicates lines on standard output -/

theorem doCopy_fst_clock_some {Fp : Type} (c : Ctx Fp) (srcD : DirListing)
    (file : String) (acc : SyncState × DirListing) (f : File)
    (h : lookupFile srcD file = some f) :
    (doCopy c srcD file acc).1.clock = acc.1.clock + 2 := by
  simp [doCopy, h]

theorem doCopy_fst_clock_none {Fp : Type} (c : Ctx Fp) (srcD : DirListing)
    (file : String) (acc : SyncState × DirListing)
    (h : lookupFile srcD file = none) :
    (doCopy c srcD file acc).1.clock = acc.1.clock + 1 := by
  simp [doCopy, h]

theorem doRemove_fst_clock {Fp : Type} (c : Ctx Fp) (file : String)
    (acc : SyncState × DirListing) :
    (doRemove c file acc).1.clock = acc.1.clock + 1 := by
  simp [doRemove]

theorem nonPrintEvents_append (a b : List Event) :
    nonPrintEvents (a ++ b) = nonPrintEvents a ++ nonPrintEvents b := by
  simp [nonPrintEvents, List.filter_append]

theorem nonPrintEvents_ite_console (v : Bool) (s : String) :
    nonPrintEvents (if v then [Event.consoleLine s] else []) = [] := by
  rcases v with _ | _ <;> rfl

theorem coreEq_printIf {st1 st2 : SyncState} (h : CoreEq st1 st2)
    (v1 v2 : Bool) (l : String) :
    CoreEq (printIf v1 l st1) (printIf v2 l st2) := by
  obtain ⟨h1, h2, h3, h4, h5⟩ := h
  refine ⟨by simp [h1], by simp [h2], by simp [h3], by simp [h4], ?_⟩
  simp only [printIf_events, nonPrintEvents_append, h5,
    nonPrintEvents_ite_console]

theorem coreEq_logAppendLine {st1 st2 : SyncState} (h : CoreEq st1 st2)
    (ft : Nat → String) (msg : String) :
    CoreEq (logAppendLine ft msg st1) (logAppendLine ft msg st2) := by
  obtain ⟨h1, h2, h3, h4, h5⟩ := h
  refine ⟨by simp [h1], by simp [h2], by simp [h3, h4], by simp [h4], ?_⟩
  simp only [logAppendLine_events, nonPrintEvents_append, h5, h4]

theorem coreEq_doCopy {Fp : Type} (c : Ctx Fp) (v1 v2 : Bool) (srcD : DirListing)
    (file : String) (a1 a2 : SyncState × DirListing) (h : CoreEq a1.1 a2.1)
    (hcur : a1.2 = a2.2) :
    CoreEq (doCopy { c with verbose := v1 } srcD file a1).1
        (doCopy { c with verbose := v2 } srcD file a2).1 ∧
      (doCopy { c with verbose := v1 } srcD file a1).2 =
        (doCopy { c with verbose := v2 } srcD file a2).2 := by
  obtain ⟨h1, h2, h3, h4, h5⟩ := h
  rcases hf : lookupFile srcD file with _ | f
  · refine ⟨⟨?_, ?_, ?_, ?_, ?_⟩, ?_⟩
    · simp [doCopy_fst_srcDir, h1]
    · simp [doCopy_fst_dstDir, h2]
    · simp [doCopy_fst_logFile, h3, h4]
    · rw [doCopy_fst_clock_none _ srcD file a1 hf,
        doCopy_fst_clock_none _ srcD file a2 hf, h4]
    · rw [doCopy_events_none _ srcD file a1 hf,
        doCopy_events_none _ srcD file a2 hf]
      simp [nonPrintEvents_append, nonPrintEvents_ite_console, h5, h4]
    · rw [doCopy_snd_none _ srcD file a1 hf, doCopy_snd_none _ srcD file a2 hf,
        hcur]
  · refine ⟨⟨?_, ?_, ?_, ?_, ?_⟩, ?_⟩
    · simp [doCopy_fst_srcDir, h1]
    · simp [doCopy_fst_dstDir, h2]
    · simp [doCopy_fst_logFile, h3, h4]
    · rw [doCopy_fst_clock_some _ srcD file a1 f hf,
        doCopy_fst_clock_some _ srcD file a2 f hf, h4]
    · rw [doCopy_events_some _ srcD file a1 f hf,
        doCopy_events_some _ srcD file a2 f hf]
      simp [nonPrintEvents_append, nonPrintEvents_ite_console, h5, h4]
    · rw [doCopy_snd_some _ srcD file a1 f hf, doCopy_snd_some _ srcD file a2 f hf,
        hcur, h4]

theorem coreEq_doRemove {Fp : Type} (c : Ctx Fp) (v1 v2 : Bool) (file : String)
    (a1 a2 : SyncState × DirListing) (h : CoreEq a1.1 a2.1) (hcur : a1.2 = a2.2) :
    CoreEq (doRemove { c with verbose := v1 } file a1).1
        (doRemove { c with verbose := v2 } file a2).1 ∧
      (doRemove { c with verbose := v1 } file a1).2 =
        (doRemove { c with verbose := v2 } file a2).2 := by
  obtain ⟨h1, h2, h3, h4, h5⟩ := h
  refine ⟨⟨?_, ?_, ?_, ?_, ?_⟩, ?_⟩
  · simp [doRemove_fst_srcDir, h1]
  · simp [doRemove_fst_dstDir, h2]
  · simp [doRemove_fst_logFile, h3, h4]
  · rw [doRemove_fst_clock, doRemove_fst_clock, h4]
  · rw [doRemove_events, doRemove_events]
    simp [nonPrintEvents_append, nonPrintEvents_ite_console, h5, h4]
  · rw [doRemove_snd, doRemove_snd, hcur]

theorem coreEq_copyStep {Fp : Type} [DecidableEq Fp] (c : Ctx Fp) (v1 v2 : Bool)
    (srcD : DirListing) (dfiles : List String) (file : String)
    (a1 a2 : SyncState × DirListing) (h : CoreEq a1.1 a2.1) (hcur : a1.2 = a2.2) :
    CoreEq (copyStep { c with verbose := v1 } srcD dfiles file a1).1
        (copyStep { c with verbose := v2 } srcD dfiles file a2).1 ∧
      (copyStep { c with verbose := v1 } srcD dfiles file a1).2 =
        (copyStep { c with verbose := v2 } srcD dfiles file a2).2 := by
  have hdo := coreEq_doCopy c v1 v2 srcD file a1 a2 h hcur
  by_cases h1 : file ∉ dfiles
  · simpa [copyStep, h1] using hdo
  · by_cases h2 : hash_file c.hashFn srcD file ≠ hash_file c.hashFn a1.2 file
    · have h2' : hash_file c.hashFn srcD file ≠ hash_file c.hashFn a2.2 file := by
        rw [← hcur]
        exact h2
      simpa [copyStep, h1, h2, h2'] using hdo
    · have h2' : ¬hash_file c.hashFn srcD file ≠ hash_file c.hashFn a2.2 file := by
        rw [← hcur]
        exact h2
      simpa [copyStep, h1, h2, h2'] using And.intro h hcur

theorem coreEq_removeStep {Fp : Type} (c : Ctx Fp) (v1 v2 : Bool)
    (sfiles : List String) (file : String) (a1 a2 : SyncState × DirListing)
    (h : CoreEq a1.1 a2.1) (hcur : a1.2 = a2.2) :
    CoreEq (removeStep { c with verbose := v1 } sfiles file a1).1
        (removeStep { c with verbose := v2 } sfiles file a2).1 ∧
      (removeStep { c with verbose := v1 } sfiles file a1).2 =
        (removeStep { c with verbose := v2 } sfiles file a2).2 := by
  have hdo := coreEq_doRemove c v1 v2 file a1 a2 h hcur
  by_cases h1 : file ∉ sfiles
  · simpa [removeStep, h1] using hdo
  · simpa [removeStep, h1] using And.intro h hcur

theorem coreEq_copyLoop {Fp : Type} [DecidableEq Fp] (c : Ctx Fp) (v1 v2 : Bool)
    (srcD : DirListing) (dfiles : List String) (files : List String) :
    ∀ a1 a2 : SyncState × DirListing, CoreEq a1.1 a2.1 → a1.2 = a2.2 →
      CoreEq (copyLoop { c with verbose := v1 } srcD dfiles files a1).1
          (copyLoop { c with verbose := v2 } srcD dfiles files a2).1 ∧
        (copyLoop { c with verbose := v1 } srcD dfiles files a1).2 =
          (copyLoop { c with verbose := v2 } srcD dfiles files a2).2 := by
  induction files with
  | nil => intro a1 a2 h hcur; exact ⟨h, hcur⟩
  | cons f0 fs ih =>
      intro a1 a2 h hcur
      obtain ⟨hstep, hstepc⟩ := coreEq_copyStep c v1 v2 srcD dfiles f0 a1 a2 h hcur
      simpa only [copyLoop] using ih _ _ hstep hstepc

theorem coreEq_removeLoop {Fp : Type} (c : Ctx Fp) (v1 v2 : Bool)
    (sfiles : List String) (files : List String) :
    ∀ a1 a2 : SyncState × DirListing, CoreEq a1.1 a2.1 → a1.2 = a2.2 →
      CoreEq (removeLoop { c with verbose := v1 } sfiles files a1).1
          (removeLoop { c with verbose := v2 } sfiles files a2).1 ∧
        (removeLoop { c with verbose := v1 } sfiles files a1).2 =
          (removeLoop { c with verbose := v2 } sfiles files a2).2 := by
  induction files with
  | nil => intro a1 a2 h hcur; exact ⟨h, hcur⟩
  | cons f0 fs ih =>
      intro a1 a2 h hcur
      obtain ⟨hstep, hstepc⟩ := coreEq_removeStep c v1 v2 sfiles f0 a1 a2 h hcur
      simpa only [removeLoop] using ih _ _ hstep hstepc

/-- C6: two runs of `sync` that differ only in the verbose flag produce the
same filesystem effects (the same copy and remove events in the same
order), the same log-file contents, the same destination and source trees,
and the same error outcome; the flag only changes standard output. -/
theorem sync_verbose_noninterference {Fp : Type} [DecidableEq Fp] (c : Ctx Fp)
    (st : SyncState) :
    (sync { c with verbose := true } st).2 = (sync { c with verbose := false } st).2 ∧
    (sync { c with verbose := true } st).1.dstDir =
      (sync { c with verbose := false } st).1.dstDir ∧
    (sync { c with verbose := true } st).1.srcDir =
      (sync { c with verbose := false } st).1.srcDir ∧
    (sync { c with verbose := true } st).1.logFile =
      (sync { c with verbose := false } st).1.logFile ∧
    nonPrintEvents (sync { c with verbose := true } st).1.events =
      nonPrintEvents (sync { c with verbose := false } st).1.events := by
  suffices hsuff : ∀ v1 v2 : Bool,
      CoreEq (sync { c with verbose := v1 } st).1 (sync { c with verbose := v2 } st).1 ∧
        (sync { c with verbose := v1 } st).2 = (sync { c with verbose := v2 } st).2 by
    obtain ⟨⟨h1, h2, h3, h4, h5⟩, h0⟩ := hsuff true false
    exact ⟨h0, h2, h1, h3, h5⟩
  intro v1 v2
  have hcore0 : CoreEq st st := ⟨rfl, rfl, rfl, rfl, rfl⟩
  rcases hs : st.srcDir with _ | srcD
  · rw [sync_of_none_src _ st hs, sync_of_none_src _ st hs]
    exact ⟨coreEq_logAppendLine (coreEq_printIf hcore0 v1 v2
      (syncStartText c.src c.dst)) c.fmtTime
      (syncStartText c.logger.src c.logger.dst), rfl⟩
  · rcases hd : st.dstDir with _ | dstD
    · rw [sync_of_none_dst _ st hs hd, sync_of_none_dst _ st hs hd]
      exact ⟨coreEq_logAppendLine (coreEq_printIf hcore0 v1 v2
        (syncStartText c.src c.dst)) c.fmtTime
        (syncStartText c.logger.src c.logger.dst), rfl⟩
    · rw [sync_of_some _ st hs hd, sync_of_some _ st hs hd]
      have h0 : CoreEq
          (logAppendLine c.fmtTime (syncStartText c.logger.src c.logger.dst)
            (printIf v1 (syncStartText c.src c.dst) st))
          (logAppendLine c.fmtTime (syncStartText c.logger.src c.logger.dst)
            (printIf v2 (syncStartText c.src c.dst) st)) :=
        coreEq_logAppendLine (coreEq_printIf hcore0 v1 v2 _) _ _
      obtain ⟨hC, hCc⟩ := coreEq_copyLoop c v1 v2 srcD (listdir dstD) (listdir srcD)
        (logAppendLine c.fmtTime (syncStartText c.logger.src c.logger.dst)
          (printIf v1 (syncStartText c.src c.dst) st), dstD)
        (logAppendLine c.fmtTime (syncStartText c.logger.src c.logger.dst)
          (printIf v2 (syncStartText c.src c.dst) st), dstD) h0 rfl
      obtain ⟨hR, hRc⟩ := coreEq_removeLoop c v1 v2 (listdir srcD) (listdir dstD)
        _ _ hC hCc
      have hmid : CoreEq
          { (removeLoop { c with verbose := v1 } (listdir srcD) (listdir dstD)
              (copyLoop { c with verbose := v1 } srcD (listdir dstD) (listdir srcD)
                (logAppendLine c.fmtTime (syncStartText c.logger.src c.logger.dst)
                  (printIf v1 (syncStartText c.src c.dst) st), dstD))).1 with
            dstDir := some ((removeLoop { c with verbose := v1 } (listdir srcD)
              (listdir dstD)
              (copyLoop { c with verbose := v1 } srcD (listdir dstD) (listdir srcD)
                (logAppendLine c.fmtTime (syncStartText c.logger.src c.logger.dst)
                  (printIf v1 (syncStartText c.src c.dst) st), dstD))).2) }
          { (removeLoop { c with verbose := v2 } (listdir srcD) (listdir dstD)
              (copyLoop { c with verbose := v2 } srcD (listdir dstD) (listdir srcD)
                (logAppendLine c.fmtTime (syncStartText c.logger.src c.logger.dst)
                  (printIf v2 (syncStartText c.src c.dst) st), dstD))).1 with
            dstDir := some ((removeLoop { c with verbose := v2 } (listdir srcD)
              (listdir dstD)
              (copyLoop { c with verbose := v2 } srcD (listdir dstD) (listdir srcD)
                (logAppendLine c.fmtTime (syncStartText c.logger.src c.logger.dst)
                  (printIf v2 (syncStartText c.src c.dst) st), dstD))).2) } := by
        obtain ⟨g1, g2, g3, g4, g5⟩ := hR
        exact ⟨by simpa using g1, by simpa using congrArg some hRc,
          by simpa using g3, by simpa using g4, by simpa using g5⟩
      exact ⟨coreEq_logAppendLine (coreEq_printIf hmid v1 v2
        (syncEndText c.src c.dst)) c.fmtTime
        (syncEndText c.logger.src c.logger.dst), rfl⟩

/-! ### C8: create semantics -/

/-- C8 as stated is false on the metadata clause: `shutil.copy` transfers
the byte content and the permission mode but not the timestamps.  On a
concrete run, the source file has modification time 5, while the created
destination entry carries the time of the copy (2), so the destination
file does not equal the source file with its metadata. -/
theorem sync_create_metadata_counterexample :
    stCreate.srcDir = some [("a.txt", File.mk [1, 2] 6 5)] ∧
    (sync ctxB stCreate).1.dstDir = some [("a.txt", File.mk [1, 2] 6 2)] ∧
    File.mk [1, 2] 6 2 ≠ File.mk [1, 2] 6 5 := by
  refine ⟨rfl, ?_, by decide⟩
  rfl

/-- C8 (amended): for a name present in the source snapshot and absent
from the destination snapshot, the pass creates the destination entry,
copying the file's full byte content and its permission mode without
overwriting any existing entry; the entry's modification time is the time
of the copy (`shutil.copy` does not preserve timestamps). -/
theorem sync_create_semantics {Fp : Type} [DecidableEq Fp] (c : Ctx Fp)
    (st : SyncState) {srcD dstD : DirListing} {n : String} {f : File}
    (hs : st.srcDir = some srcD) (hd : st.dstDir = some dstD)
    (hns : (listdir srcD).Nodup)
    (hf : lookupFile srcD n = some f) (hg : lookupFile dstD n = none) :
    ∃ d1 t, (sync c st).1.dstDir = some d1 ∧
      lookupFile d1 n = some { content := f.content, mode := f.mode, mtime := t } := by
  have hmemS : n ∈ listdir srcD := by
    rw [mem_listdir_iff_isSome, hf]
    rfl
  have hnotD : n ∉ listdir dstD := (lookupFile_eq_none_iff dstD n).mp hg
  obtain ⟨t, ht⟩ := copyLoop_snd_create c srcD (listdir dstD) hf hnotD
    (listdir srcD)
    (logAppendLine c.fmtTime (syncStartText c.logger.src c.logger.dst)
      (printIf c.verbose (syncStartText c.src c.dst) st), dstD) hns hmemS
  refine ⟨_, t, sync_fst_dstDir_of_some c st hs hd, ?_⟩
  rw [removeLoop_snd_lookup_of_mem c hmemS]
  exact ht

/-- Witness for the amended create-semantics theorem. -/
theorem sync_create_semantics_witness :
    ∃ d1 t, (sync ctxB stCreate).1.dstDir = some d1 ∧
      lookupFile d1 "a.txt" = some { content := [1, 2], mode := 6, mtime := t } :=
  @sync_create_semantics Bytes _ ctxB stCreate _ _ "a.txt" (File.mk [1, 2] 6 5)
    rfl rfl (by decide) (by decide) (by decide)

/-! ### C10: each action is logged before it is performed -/

theorem actLogged_nil (act : String → Event) (logOf : String → Nat → String) :
    ActLogged act logOf [] := by
  intro l1 n l2 h
  have hlen := congrArg List.length h
  simp at hlen
  omega

theorem actLogged_append_free {act : String → Event} {logOf : String → Nat → String}
    {evs E : List Event} (h : ActLogged act logOf evs)
    (hfree : ∀ m, act m ∉ E) : ActLogged act logOf (evs ++ E) := by
  intro l1 n l2 heq
  rcases List.append_eq_append_iff.mp heq with ⟨w, hw1, hw2⟩ | ⟨w, hw1, hw2⟩
  · refine absurd ?_ (hfree n)
    rw [hw2]
    exact List.mem_append.mpr (Or.inr (List.mem_cons_self _ _))
  · rcases w with _ | ⟨x, w⟩
    · rw [List.nil_append] at hw2
      refine absurd ?_ (hfree n)
      rw [← hw2]
      exact List.mem_cons_self _ _
    · rw [List.cons_append] at hw2
      injection hw2 with hx hl2
      subst hx
      exact h l1 n w hw1

theorem actLogged_append_block {act : String → Event} {logOf : String → Nat → String}
    {evs X : List Event} {n : String} {t : Nat}
    (h : ActLogged act logOf evs) (hfree : ∀ m, act m ∉ X)
    (hne : ∀ m l, act m ≠ Event.logAppend l)
    (hinj : ∀ m k, act m = act k → m = k) :
    ActLogged act logOf
      (evs ++ (X ++ [Event.logAppend (logOf n t), act n])) := by
  intro l1 m l2 heq
  rcases List.append_eq_append_iff.mp heq with ⟨w, hw1, hw2⟩ | ⟨w, hw1, hw2⟩
  · rcases List.append_eq_append_iff.mp hw2 with ⟨u, hu1, hu2⟩ | ⟨u, hu1, hu2⟩
    · rcases u with _ | ⟨e1, u⟩
      · rw [List.nil_append] at hu2
        injection hu2 with h1 h2
        exact absurd h1.symm (hne m (logOf n t))
      · rw [List.cons_append] at hu2
        injection hu2 with he1 hrest
        rcases u with _ | ⟨e2, u⟩
        · rw [List.nil_append] at hrest
          injection hrest with h1 h2
          have hmn : m = n := (hinj n m h1).symm
          refine ⟨t, ?_⟩
          rw [hmn, hw1, hu1, ← he1]
          exact List.mem_append.mpr (Or.inr
            (List.mem_append.mpr (Or.inr (List.mem_cons_self _ _))))
        · rw [List.cons_append] at hrest
          injection hrest with he2 hrest2
          simp at hrest2
    · rcases u with _ | ⟨e1, u⟩
      · rw [List.nil_append] at hu2
        injection hu2 with h1 h2
        exact absurd h1 (hne m _)
      · rw [List.cons_append] at hu2
        injection hu2 with he1 hrest
        refine absurd ?_ (hfree m)
        rw [hu1, he1]
        exact List.mem_append.mpr (Or.inr (List.mem_cons_self _ _))
  · rcases w with _ | ⟨x, w⟩
    · rw [List.nil_append] at hw2
      rcases X with _ | ⟨x0, X⟩
      · rw [List.nil_append] at hw2
        injection hw2 with h1 h2
        exact absurd h1 (hne m _)
      · rw [List.cons_append] at hw2
        injection hw2 with hx0 h2
        refine absurd ?_ (hfree m)
        rw [hx0]
        exact List.mem_cons_self _ _
    · rw [List.cons_append] at hw2
      injection hw2 with hx hl2
      subst hx
      exact h l1 m w hw1

theorem actLogged_startBlock {act : String → Event} {logOf : String → Nat → String}
    (hc : ∀ m s, act m ≠ Event.consoleLine s)
    (hl : ∀ m l, act m ≠ Event.logAppend l) (v : Bool) (s l : String) :
    ActLogged act logOf
      ((if v then [Event.consoleLine s] else []) ++ [Event.logAppend l]) := by
  have hfree : ∀ m, act m ∉
      ((if v then [Event.consoleLine s] else []) ++ [Event.logAppend l]) := by
    intro m hm
    rcases mem_metaBlock hm with ⟨s2, h'⟩ | ⟨l2, h'⟩
    · exact hc m s2 h'
    · exact hl m l2 h'
  have h0 := @actLogged_append_free act logOf [] _
    (actLogged_nil act logOf) hfree
  simpa using h0

theorem copyLoop_actLogged_copy {Fp : Type} [DecidableEq Fp] (c : Ctx Fp)
    (srcD : DirListing) (dfiles : List String) (files : List String) :
    ∀ acc : SyncState × DirListing,
      ActLogged Event.copyFile
        (fun m t => logLine c.fmtTime t (copyText m c.logger.src c.logger.dst))
        acc.1.events →
      ActLogged Event.copyFile
        (fun m t => logLine c.fmtTime t (copyText m c.logger.src c.logger.dst))
        (copyLoop c srcD dfiles files acc).1.events := by
  induction files with
  | nil => intro acc h; exact h
  | cons f0 fs ih =>
      intro acc h
      simp only [copyLoop]
      apply ih
      have hne : ∀ (m l : String), Event.copyFile m ≠ Event.logAppend l :=
        fun m l hh => Event.noConfusion hh
      have hinj : ∀ m k, Event.copyFile m = Event.copyFile k → m = k := by
        intro m k hh
        injection hh
      have hfreeIte : ∀ m, Event.copyFile m ∉
          (if c.verbose then [Event.consoleLine (copyText f0 c.src c.dst)] else []) := by
        intro m hm
        rcases c.verbose with _ | _ <;> simp_all
      have hdo : ActLogged Event.copyFile
          (fun m t => logLine c.fmtTime t (copyText m c.logger.src c.logger.dst))
          (doCopy c srcD f0 acc).1.events := by
        rcases hf : lookupFile srcD f0 with _ | f
        · rw [doCopy_events_none c srcD f0 acc hf]
          apply actLogged_append_free h
          intro m hm
          rcases mem_metaBlock hm with ⟨s, h'⟩ | ⟨l, h'⟩ <;> cases h'
        · rw [doCopy_events_some c srcD f0 acc f hf]
          exact actLogged_append_block h hfreeIte hne hinj
      by_cases h1 : f0 ∉ dfiles
      · simpa [copyStep, h1] using hdo
      · by_cases h2 : hash_file c.hashFn srcD f0 ≠ hash_file c.hashFn acc.2 f0
        · simpa [copyStep, h1, h2] using hdo
        · simpa [copyStep, h1, h2] using h

theorem copyLoop_actLogged_remove {Fp : Type} [DecidableEq Fp] (c : Ctx Fp)
    (srcD : DirListing) (dfiles : List String) (files : List String)
    (acc : SyncState × DirListing)
    (h : ActLogged Event.removeFile
      (fun m t => logLine c.fmtTime t (removeText m c.logger.dst)) acc.1.events) :
    ActLogged Event.removeFile
      (fun m t => logLine c.fmtTime t (removeText m c.logger.dst))
      (copyLoop c srcD dfiles files acc).1.events := by
  obtain ⟨E, hE, hEs⟩ := copyLoop_fst_events c srcD dfiles files acc
  rw [hE]
  apply actLogged_append_free h
  intro m hm
  rcases hEs _ hm with ⟨s, h'⟩ | ⟨l, h'⟩ | ⟨k, _, h'⟩ <;> cases h'

theorem removeLoop_actLogged_remove {Fp : Type} (c : Ctx Fp)
    (sfiles : List String) (files : List String) :
    ∀ acc : SyncState × DirListing,
      ActLogged Event.removeFile
        (fun m t => logLine c.fmtTime t (removeText m c.logger.dst)) acc.1.events →
      ActLogged Event.removeFile
        (fun m t => logLine c.fmtTime t (removeText m c.logger.dst))
        (removeLoop c sfiles files acc).1.events := by
  induction files with
  | nil => intro acc h; exact h
  | cons f0 fs ih =>
      intro acc h
      simp only [removeLoop]
      apply ih
      have hne : ∀ (m l : String), Event.removeFile m ≠ Event.logAppend l :=
        fun m l hh => Event.noConfusion hh
      have hinj : ∀ m k, Event.removeFile m = Event.removeFile k → m = k := by
        intro m k hh
        injection hh
      have hfreeIte : ∀ m, Event.removeFile m ∉
          (if c.verbose then [Event.consoleLine (removeText f0 c.dst)] else []) := by
        intro m hm
        rcases c.verbose with _ | _ <;> simp_all
      have hdo : ActLogged Event.removeFile
          (fun m t => logLine c.fmtTime t (removeText m c.logger.dst))
          (doRemove c f0 acc).1.events := by
        rw [doRemove_events c f0 acc]
        exact actLogged_append_block h hfreeIte hne hinj
      by_cases h1 : f0 ∉ sfiles
      · simpa [removeStep, h1] using hdo
      · simpa [removeStep, h1] using h

theorem removeLoop_actLogged_copy {Fp : Type} (c : Ctx Fp)
    (sfiles : List String) (files : List String) (acc : SyncState × DirListing)
    (h : ActLogged Event.copyFile
      (fun m t => logLine c.fmtTime t (copyText m c.logger.src c.logger.dst))
      acc.1.events) :
    ActLogged Event.copyFile
      (fun m t => logLine c.fmtTime t (copyText m c.logger.src c.logger.dst))
      (removeLoop c sfiles files acc).1.events := by
  obtain ⟨E, hE, hEs⟩ := removeLoop_fst_events c sfiles files acc
  rw [hE]
  apply actLogged_append_free h
  intro m hm
  rcases hEs _ hm with ⟨s, h'⟩ | ⟨l, h'⟩ | ⟨k, _, _, h'⟩ <;> cases h'

/-- C10: every log line is appended strictly before the action it
describes: in the event trace, every copy and every removal is preceded by
the log line that describes it, and a pass that fails at snapshot time
still leaves the pass-start log line in the log file. -/
theorem sync_log_before_action {Fp : Type} [DecidableEq Fp] (c : Ctx Fp)
    (st : SyncState) (hev : st.events = []) :
    ActLogged Event.copyFile
        (fun m t => logLine c.fmtTime t (copyText m c.logger.src c.logger.dst))
        (sync c st).1.events ∧
    ActLogged Event.removeFile
        (fun m t => logLine c.fmtTime t (removeText m c.logger.dst))
        (sync c st).1.events ∧
    (st.srcDir = none ∨ st.dstDir = none →
      ∃ t, (sync c st).1.logFile =
        st.logFile ++
          [logLine c.fmtTime t (syncStartText c.logger.src c.logger.dst)]) := by
  have hcC : ∀ (m s : String), Event.copyFile m ≠ Event.consoleLine s :=
    fun m s hh => Event.noConfusion hh
  have hlC : ∀ (m l : String), Event.copyFile m ≠ Event.logAppend l :=
    fun m l hh => Event.noConfusion hh
  have hcR : ∀ (m s : String), Event.removeFile m ≠ Event.consoleLine s :=
    fun m s hh => Event.noConfusion hh
  have hlR : ∀ (m l : String), Event.removeFile m ≠ Event.logAppend l :=
    fun m l hh => Event.noConfusion hh
  rcases hs : st.srcDir with _ | srcD
  · rw [sync_of_none_src c st hs]
    have he : (logAppendLine c.fmtTime (syncStartText c.logger.src c.logger.dst)
        (printIf c.verbose (syncStartText c.src c.dst) st)).events =
        (if c.verbose then [Event.consoleLine (syncStartText c.src c.dst)]
          else []) ++
          [Event.logAppend (logLine c.fmtTime st.clock
            (syncStartText c.logger.src c.logger.dst))] := by
      simp [hev]
    refine ⟨?_, ?_, fun _ => ⟨st.clock, by simp⟩⟩
    · rw [he]
      exact actLogged_startBlock hcC hlC c.verbose _ _
    · rw [he]
      exact actLogged_startBlock hcR hlR c.verbose _ _
  · rcases hd : st.dstDir with _ | dstD
    · rw [sync_of_none_dst c st hs hd]
      have he : (logAppendLine c.fmtTime (syncStartText c.logger.src c.logger.dst)
          (printIf c.verbose (syncStartText c.src c.dst) st)).events =
          (if c.verbose then [Event.consoleLine (syncStartText c.src c.dst)]
            else []) ++
            [Event.logAppend (logLine c.fmtTime st.clock
              (syncStartText c.logger.src c.logger.dst))] := by
        simp [hev]
      refine ⟨?_, ?_, fun _ => ⟨st.clock, by simp⟩⟩
      · rw [he]
        exact actLogged_startBlock hcC hlC c.verbose _ _
      · rw [he]
        exact actLogged_startBlock hcR hlR c.verbose _ _
    · have hstart : (logAppendLine c.fmtTime
          (syncStartText c.logger.src c.logger.dst)
          (printIf c.verbose (syncStartText c.src c.dst) st)).events =
          (if c.verbose then [Event.consoleLine (syncStartText c.src c.dst)]
            else []) ++
            [Event.logAppend (logLine c.fmtTime st.clock
              (syncStartText c.logger.src c.logger.dst))] := by
        simp [hev]
      have hfinal : (sync c st).1.events =
          (removeLoop c (listdir srcD) (listdir dstD)
            (copyLoop c srcD (listdir dstD) (listdir srcD)
              (logAppendLine c.fmtTime (syncStartText c.logger.src c.logger.dst)
                (printIf c.verbose (syncStartText c.src c.dst) st),
                dstD))).1.events ++
          ((if c.verbose then [Event.consoleLine (syncEndText c.src c.dst)]
            else []) ++
            [Event.logAppend (logLine c.fmtTime
              ((removeLoop c (listdir srcD) (listdir dstD)
                (copyLoop c srcD (listdir dstD) (listdir srcD)
                  (logAppendLine c.fmtTime
                    (syncStartText c.logger.src c.logger.dst)
                    (printIf c.verbose (syncStartText c.src c.dst) st),
                    dstD))).1.clock)
              (syncEndText c.logger.src c.logger.dst))]) := by
        rw [sync_of_some c st hs hd]
        simp [List.append_assoc]
      refine ⟨?_, ?_, ?_⟩
      · rw [hfinal]
        apply actLogged_append_free
        · apply removeLoop_actLogged_copy
          apply copyLoop_actLogged_copy
          rw [hstart]
          exact actLogged_startBlock hcC hlC c.verbose _ _
        · intro m hm
          rcases mem_metaBlock hm with ⟨s, h'⟩ | ⟨l, h'⟩ <;> cases h'
      · rw [hfinal]
        apply actLogged_append_free
        · apply removeLoop_actLogged_remove
          apply copyLoop_actLogged_remove
          rw [hstart]
          exact actLogged_startBlock hcR hlR c.verbose _ _
        · intro m hm
          rcases mem_metaBlock hm with ⟨s, h'⟩ | ⟨l, h'⟩ <;> cases h'
      · intro hor
        rcases hor with h | h
        · exact Option.noConfusion h
        · exact Option.noConfusion h

/-- Witness for the log-before-action theorem: a failing pass still holds
the pass-start line in its log file. -/
theorem sync_log_before_action_witness :
    ∃ t, (sync ctxA stMissingSrc).1.logFile =
      stMissingSrc.logFile ++
        [logLine ctxA.fmtTime t
          (syncStartText ctxA.logger.src ctxA.logger.dst)] :=
  (sync_log_before_action ctxA stMissingSrc rfl).2.2 (Or.inl rfl)
